import Mathlib

/-!
# Verification of the goipp IPP wire-format codec

Shallow embedding of the goipp library (IPP message encoder/decoder,
value codec, tag/type registries and the equality/similarity algebra),
with theorems settling the frozen specification claims.

Go machine integers are modelled as `Nat`/`Int` with explicit reductions
(`% 256`, `% 65536`, `% 2^32`) at the points where the Go code converts.
Byte strings (`[]byte`, `string`) are modelled as `List Nat` of byte
values.  Fallible Go functions return `Except String α` carrying the Go
error string.
-/

namespace Goipp

/-! ## Byte-level helpers -/

/-- Go `fmt.Sprintf("%x", n)` for a non-negative integer: lowercase
hex digits, no leading zeros, `"0"` for zero. -/
def hexStr (n : Nat) : String :=
  String.mk (Nat.toDigits 16 n)

/-- Big-endian 16-bit encoding of a value already reduced below 2^16
(Go `encodeU16`: `byte(v >> 8), byte(v)`). -/
def bytes16 (n : Nat) : List Nat :=
  [n / 256 % 256, n % 256]

/-- Big-endian 32-bit encoding (Go `encodeU32`). -/
def bytes32 (n : Nat) : List Nat :=
  [n / 16777216 % 256, n / 65536 % 256, n / 256 % 256, n % 256]

/-- Big-endian read of two bytes (Go `binary.BigEndian.Uint16`). -/
def be16 (bs : List Nat) : Nat :=
  256 * bs.getD 0 0 + bs.getD 1 0

/-- Big-endian read of four bytes (Go `binary.BigEndian.Uint32`). -/
def be32 (bs : List Nat) : Nat :=
  16777216 * bs.getD 0 0 + 65536 * bs.getD 1 0 + 256 * bs.getD 2 0 + bs.getD 3 0

/-- Go conversion `int32(u)` of a `uint32` value: two's complement. -/
def toInt32 (u : Nat) : Int :=
  if u < 2147483648 then (u : Int) else (u : Int) - 4294967296

/-- Go conversion `byte(t)` of a (possibly signed) integer. -/
def tagByte (t : Int) : Nat :=
  (t % 256).toNat

/-! ## Type registry (src/type.go) -/

/-- `Type` enumerates all possible value types (src/type.go). -/
inductive Ty where
  | invalid
  | void
  | integer
  | boolean
  | string
  | dateTime
  | resolution
  | range
  | textWithLang
  | binary
  | collection
deriving DecidableEq, Repr

/-- `Type.String` (src/type.go). -/
def Ty.str : Ty → String
  | .invalid => "Invalid"
  | .void => "Void"
  | .integer => "Integer"
  | .boolean => "Boolean"
  | .string => "String"
  | .dateTime => "DateTime"
  | .resolution => "Resolution"
  | .range => "Range"
  | .textWithLang => "TextWithLang"
  | .binary => "Binary"
  | .collection => "Collection"

/-! ## Tag registry

Tags are modelled as `Int` (the spec: a signed integer wide enough to
carry the 8-bit wire value; the 32-bit extension envelope can produce
values up to `0x7fffffff`). -/

def TagZero : Int := 0x00
def TagOperationGroup : Int := 0x01
def TagJobGroup : Int := 0x02
def TagEnd : Int := 0x03
def TagPrinterGroup : Int := 0x04
def TagUnsupportedGroup : Int := 0x05
def TagSubscriptionGroup : Int := 0x06
def TagEventNotificationGroup : Int := 0x07
def TagResourceGroup : Int := 0x08
def TagDocumentGroup : Int := 0x09
def TagSystemGroup : Int := 0x0a
def TagFuture11Group : Int := 0x0b
def TagFuture12Group : Int := 0x0c
def TagFuture13Group : Int := 0x0d
def TagFuture14Group : Int := 0x0e
def TagFuture15Group : Int := 0x0f
def TagUnsupportedValue : Int := 0x10
def TagDefault : Int := 0x11
def TagUnknown : Int := 0x12
def TagNoValue : Int := 0x13
def TagNotSettable : Int := 0x15
def TagDeleteAttr : Int := 0x16
def TagAdminDefine : Int := 0x17
def TagInteger : Int := 0x21
def TagBoolean : Int := 0x22
def TagEnum : Int := 0x23
def TagString : Int := 0x30
def TagDate : Int := 0x31
def TagResolution : Int := 0x32
def TagRange : Int := 0x33
def TagBeginCollection : Int := 0x34
def TagTextLang : Int := 0x35
def TagNameLang : Int := 0x36
def TagEndCollection : Int := 0x37
def TagText : Int := 0x41
def TagName : Int := 0x42
def TagReservedString : Int := 0x43
def TagKeyword : Int := 0x44
def TagURI : Int := 0x45
def TagURIScheme : Int := 0x46
def TagCharset : Int := 0x47
def TagLanguage : Int := 0x48
def TagMimeType : Int := 0x49
def TagMemberName : Int := 0x4a
def TagExtension : Int := 0x7f

/-- `Tag.IsDelimiter` (src/tag.go): true iff the tag is below `0x10`. -/
def tagIsDelimiter (t : Int) : Bool :=
  0 ≤ t && t < 0x10

/-- Modelled from the spec: `Tag.Type` is not present under src/ (only its
test table, src/tag.go second part, and its callers are).  Spec §3/§4.1:
delimiter tags map to Invalid, out-of-band tags `0x10`–`0x1f` to Void,
the typed value tags to their semantic types, `EndCollection` to Void,
and every other non-delimiter tag (including `octetString` and the
extension tag) to Binary. -/
def tagType (t : Int) : Ty :=
  if tagIsDelimiter t then .invalid
  else if 0x10 ≤ t && t < 0x20 then .void
  else if t = TagInteger || t = TagEnum then .integer
  else if t = TagBoolean then .boolean
  else if t = TagText || t = TagName || t = TagReservedString || t = TagKeyword ||
          t = TagURI || t = TagURIScheme || t = TagCharset || t = TagLanguage ||
          t = TagMimeType || t = TagMemberName then .string
  else if t = TagDate then .dateTime
  else if t = TagResolution then .resolution
  else if t = TagRange then .range
  else if t = TagTextLang || t = TagNameLang then .textWithLang
  else if t = TagBeginCollection then .collection
  else if t = TagEndCollection then .void
  else .binary

/-- `Tag.String` (src/tag.go): RFC 8010 names with a hex fallback. -/
def tagString (t : Int) : String :=
  if t = TagZero then "zero"
  else if t = TagOperationGroup then "operation-attributes-tag"
  else if t = TagJobGroup then "job-attributes-tag"
  else if t = TagEnd then "end-of-attributes-tag"
  else if t = TagPrinterGroup then "printer-attributes-tag"
  else if t = TagUnsupportedGroup then "unsupported-attributes-tag"
  else if t = TagSubscriptionGroup then "subscription-attributes-tag"
  else if t = TagEventNotificationGroup then "event-notification-attributes-tag"
  else if t = TagResourceGroup then "resource-attributes-tag"
  else if t = TagDocumentGroup then "document-attributes-tag"
  else if t = TagSystemGroup then "system-attributes-tag"
  else if t = TagUnsupportedValue then "unsupported"
  else if t = TagDefault then "default"
  else if t = TagUnknown then "unknown"
  else if t = TagNoValue then "no-value"
  else if t = TagNotSettable then "not-settable"
  else if t = TagDeleteAttr then "delete-attribute"
  else if t = TagAdminDefine then "admin-define"
  else if t = TagInteger then "integer"
  else if t = TagBoolean then "boolean"
  else if t = TagEnum then "enum"
  else if t = TagString then "octetString"
  else if t = TagDate then "dateTime"
  else if t = TagResolution then "resolution"
  else if t = TagRange then "rangeOfInteger"
  else if t = TagBeginCollection then "collection"
  else if t = TagTextLang then "textWithLanguage"
  else if t = TagNameLang then "nameWithLanguage"
  else if t = TagEndCollection then "endCollection"
  else if t = TagText then "textWithoutLanguage"
  else if t = TagName then "nameWithoutLanguage"
  else if t = TagKeyword then "keyword"
  else if t = TagURI then "uri"
  else if t = TagURIScheme then "uriScheme"
  else if t = TagCharset then "charset"
  else if t = TagLanguage then "naturalLanguage"
  else if t = TagMimeType then "mimeMediaType"
  else if t = TagMemberName then "memberAttrName"
  else "0x" ++ hexStr (t % 4294967296).toNat

/-! ## Version (src/message.go, src/unnamed/part_008) -/

/-- `MakeVersion` (src/message.go): `Version(major)<<8 | Version(minor)`,
where `Version` is `uint16` and both arguments are `uint8` values. -/
def MakeVersion (major minor : Nat) : Nat :=
  ((major <<< 8) ||| minor) % 65536

/-- `Version.Major` (src/message.go): `uint8(v >> 8)`. -/
def versionMajor (v : Nat) : Nat :=
  (v >>> 8) % 256

/-- `Version.Minor` (src/message.go): `uint8(v)`. -/
def versionMinor (v : Nat) : Nat :=
  v % 256

/-! ## The value model (src/value.go, second part)

`Time` wraps Go `time.Time`; it is modelled by the fields observable
through the accessors the codec uses (`Year()` … `Nanosecond()` and the
`Zone()` offset in seconds east of UTC).  `timeValid` below captures the
invariants Go `time.Time` guarantees for these accessors. -/

structure TimeRec where
  year : Int
  month : Nat
  day : Nat
  hour : Nat
  minute : Nat
  second : Nat
  nsec : Nat
  zone : Int
deriving DecidableEq, Repr

mutual
/-- `Value` (src/value.go): the closed set of attribute value variants. -/
inductive Value where
  | void
  | integer (n : Int)
  | boolean (b : Bool)
  | str (s : List Nat)
  | time (t : TimeRec)
  | resolution (xres yres : Int) (units : Nat)
  | range (lower upper : Int)
  | textWithLang (lang text : List Nat)
  | binary (d : List Nat)
  | collection (c : List Attr)

/-- `Attribute` (src/unnamed/part_002): a name and a slice of
tagged values. -/
inductive Attr where
  | mk (name : List Nat) (values : List (Int × Value))
end

/-- Attribute name accessor. -/
def Attr.name : Attr → List Nat
  | .mk n _ => n

/-- Attribute values accessor. -/
def Attr.values : Attr → List (Int × Value)
  | .mk _ vs => vs

/-- `Value.Type` (src/value.go `Type()` methods). -/
def Value.type : Value → Ty
  | .void => .void
  | .integer _ => .integer
  | .boolean _ => .boolean
  | .str _ => .string
  | .time _ => .dateTime
  | .resolution _ _ _ => .resolution
  | .range _ _ => .range
  | .textWithLang _ _ => .textWithLang
  | .binary _ => .binary
  | .collection _ => .collection

/-! ## Per-kind value encoding (src/value.go `encode` methods) -/

/-- `Value.encode` (src/value.go): per-kind wire encoding of the payload
bytes; only `TextWithLang.encode` can fail. -/
def valueEncode : Value → Except String (List Nat)
  | .void => .ok []
  | .integer n => .ok (bytes32 (n % 4294967296).toNat)
  | .boolean b => .ok [if b then 1 else 0]
  | .str s => .ok s
  | .time t =>
      let zoneAbs : Nat := t.zone.natAbs
      .ok ([(t.year % 65536).toNat / 256, (t.year % 65536).toNat % 256,
            t.month % 256, t.day % 256, t.hour % 256, t.minute % 256,
            t.second % 256, t.nsec / 100000000 % 256,
            if t.zone < 0 then 45 else 43,
            zoneAbs / 3600 % 256, zoneAbs / 60 % 60])
  | .resolution x y u =>
      .ok (bytes32 (x % 4294967296).toNat ++ bytes32 (y % 4294967296).toNat ++ [u % 256])
  | .range l u =>
      .ok (bytes32 (l % 4294967296).toNat ++ bytes32 (u % 4294967296).toNat)
  | .textWithLang lang text =>
      if lang.length > 65535 then .error "Lang exceeds 65535 bytes"
      else if text.length > 65535 then .error "Text exceeds 65535 bytes"
      else .ok (bytes16 lang.length ++ lang ++ bytes16 text.length ++ text)
  | .binary d => .ok d
  | .collection _ => .ok []

/-! ## Per-kind value decoding (src/value.go `decode` methods) -/

/-- `Integer.decode` (src/value.go). -/
def integerDecode (data : List Nat) : Except String Value :=
  if data.length ≠ 4 then .error "value must be 4 bytes"
  else .ok (.integer (toInt32 (be32 data)))

/-- `Boolean.decode` (src/value.go). -/
def booleanDecode (data : List Nat) : Except String Value :=
  if data.length ≠ 1 then .error "value must be 1 byte"
  else .ok (.boolean (data.getD 0 0 ≠ 0))

/-- `String.decode` (src/value.go). -/
def stringDecode (data : List Nat) : Except String Value :=
  .ok (.str data)

/-- Go `time.Date(year, month, day, hour, min, sec, nsec, zone)` as used
by `Time.decode`.  The stdlib constructor normalizes out-of-range fields;
the claims settled here depend only on in-range fields and on the
success/failure of the decode, so the record is built from the raw
fields. -/
def timeDate (year : Int) (month day hour minute second nsec : Nat) (zone : Int) : TimeRec :=
  { year := year, month := month, day := day, hour := hour,
    minute := minute, second := second, nsec := nsec, zone := zone }

/-- `Time.decode` (src/value.go lines 462-503): accepts 9- or 11-byte
payloads, inspects only the UTC sign byte, and performs no per-field
range validation. -/
def timeDecode (data : List Nat) : Except String Value :=
  if data.length ≠ 9 && data.length ≠ 11 then
    .error "value must be 9 or 11 bytes"
  else
    let zone? : Except String Int :=
      if data.length = 9 then .ok 0
      else if data.getD 8 0 = 43 || data.getD 8 0 = 45 then
        let off : Int := 3600 * data.getD 9 0 + 60 * data.getD 10 0
        .ok (if data.getD 8 0 = 45 then -off else off)
      else .error "invalid data format"
    match zone? with
    | .error e => .error e
    | .ok zone =>
        .ok (.time (timeDate (be16 data) (data.getD 2 0) (data.getD 3 0)
          (data.getD 4 0) (data.getD 5 0) (data.getD 6 0)
          (data.getD 7 0 * 100000000) zone))

/-- `Resolution.decode` (src/value.go): the three fields are read with
`int(binary.BigEndian.Uint32(...))` — no sign extension. -/
def resolutionDecode (data : List Nat) : Except String Value :=
  if data.length ≠ 9 then .error "value must be 9 bytes"
  else .ok (.resolution (be32 (data.take 4)) (be32 (data.drop 4)) (data.getD 8 0))

/-- `Range.decode` (src/value.go): note the length-error text says
"9 bytes" in the source even though the check is against 8. -/
def rangeDecode (data : List Nat) : Except String Value :=
  if data.length ≠ 8 then .error "value must be 9 bytes"
  else .ok (.range (be32 (data.take 4)) (be32 (data.drop 4)))

/-- `TextWithLang.decode` (src/value.go). -/
def textWithLangDecode (data : List Nat) : Except String Value :=
  if data.length < 2 then .error "invalid data format"
  else
    let langLen := be16 data
    let data1 := data.drop 2
    if data1.length < langLen then .error "invalid data format"
    else
      let lang := data1.take langLen
      let data2 := data1.drop langLen
      if data2.length < 2 then .error "invalid data format"
      else
        let textLen := be16 data2
        let data3 := data2.drop 2
        if data3.length < textLen then .error "invalid data format"
        else
          let text := data3.take textLen
          let data4 := data3.drop textLen
          if data4.length ≠ 0 then .error "invalid data format"
          else .ok (.textWithLang lang text)

/-- `Binary.decode` (src/value.go). -/
def binaryDecode (data : List Nat) : Except String Value :=
  .ok (.binary data)

/-! ## Structural size measures (termination only) -/

mutual
def valueSize : Value → Nat
  | .collection c => 1 + attrListSize c
  | _ => 1

def tvListSize : List (Int × Value) → Nat
  | [] => 1
  | (_, v) :: rest => 1 + valueSize v + tvListSize rest

def attrListSize : List Attr → Nat
  | [] => 5
  | .mk _ vs :: rest => 6 + tvListSize vs + attrListSize rest
end

def attrSize (a : Attr) : Nat := 1 + tvListSize a.values

theorem attrListSize_cons (a : Attr) (rest : List Attr) :
    attrListSize (a :: rest) = 5 + attrSize a + attrListSize rest := by
  cases a
  simp [attrListSize, attrSize, Attr.values]
  omega

/-! ## The message model (src/unnamed/part_008, second part)

`Message`: version, code, request id, and the per-group attribute
slices.  Go distinguishes nil and empty slices; in this embedding both
are `[]`, and `attrGroups` keeps the groups with at least one
attribute. -/

structure Msg where
  version : Nat
  code : Nat
  requestID : Nat
  operation : List Attr := []
  job : List Attr := []
  printer : List Attr := []
  unsupported : List Attr := []
  subscription : List Attr := []
  eventNotification : List Attr := []
  resource : List Attr := []
  document : List Attr := []
  system : List Attr := []
  future11 : List Attr := []
  future12 : List Attr := []
  future13 : List Attr := []
  future14 : List Attr := []
  future15 : List Attr := []

/-- `Message.attrGroups` (src/unnamed/part_008): the (tag, attributes)
pairs in fixed wire order, skipping empty groups. -/
def attrGroups (m : Msg) : List (Int × List Attr) :=
  [(TagOperationGroup, m.operation),
   (TagJobGroup, m.job),
   (TagPrinterGroup, m.printer),
   (TagUnsupportedGroup, m.unsupported),
   (TagSubscriptionGroup, m.subscription),
   (TagEventNotificationGroup, m.eventNotification),
   (TagResourceGroup, m.resource),
   (TagDocumentGroup, m.document),
   (TagSystemGroup, m.system),
   (TagFuture11Group, m.future11),
   (TagFuture12Group, m.future12),
   (TagFuture13Group, m.future13),
   (TagFuture14Group, m.future14),
   (TagFuture15Group, m.future15)].filter (fun p => !p.2.isEmpty)

/-! ## Stream encoder (src/encoder.go)

The Go encoder writes to an `io.Writer`; encoding functions here return
the bytes written together with the Go error (`none` on success).  On
error, the bytes written before the failure are kept, as they were
already emitted to the stream. -/

/-- The tag/type mismatch error of `messageEncoder.encodeValue`. -/
def mismatchError (tag : Int) (vty : Ty) : String :=
  "Tag " ++ tagString tag ++ ": " ++ (tagType tag).str ++ " value required, " ++
    vty.str ++ " present"

/-- `messageEncoder.encodeName` (src/encoder.go lines 127-138). -/
def encodeName (name : List Nat) : List Nat × Option String :=
  if name.length > 65535 then
    ([], some ("Attribute name exceeds " ++ toString name.length ++ " bytes"))
  else (bytes16 name.length ++ name, none)

theorem valueSize_str (s : List Nat) : valueSize (.str s) = 1 := rfl

theorem valueSize_void : valueSize .void = 1 := rfl

theorem valueSize_collection (c : List Attr) :
    valueSize (.collection c) = 1 + attrListSize c := rfl

mutual
/-- `messageEncoder.encodeValue` (src/encoder.go lines 141-177).  For a
Void-typed tag the source overwrites the supplied value with `Void{}`
and then runs the same pipeline; since the overwritten value is never a
collection, that pipeline is spelled out in the Void branch here. -/
def encodeValue (tag : Int) (v : Value) : List Nat × Option String :=
  let tagTy := tagType tag
  if tagTy = .invalid then
    ([], some ("Tag " ++ tagString tag ++ " cannot be used for value"))
  else if tagTy = .void then
    -- v = Void{}: encode proceeds with the overwritten Void value
    match valueEncode .void with
    | .error e => ([], some e)
    | .ok data =>
        if data.length > 65535 then
          ([], some ("Attribute value exceeds " ++ toString data.length ++ " bytes"))
        else (bytes16 data.length ++ data, none)
  else if tagTy ≠ v.type then
    ([], some (mismatchError tag v.type))
  else
    match valueEncode v with
    | .error e => ([], some e)
    | .ok data =>
        if data.length > 65535 then
          ([], some ("Attribute value exceeds " ++ toString data.length ++ " bytes"))
        else
          let written := bytes16 data.length ++ data
          match v with
          | .collection c =>
              let r := encodeCollection c
              (written ++ r.1, r.2)
          | _ => (written, none)
termination_by valueSize v
decreasing_by
  simp [valueSize]

/-- The value loop of `messageEncoder.encodeAttr` (src/encoder.go lines
84-101): each value is written as tag, name, value; every value after
the first is written with an empty name. -/
def encodeValuesLoop (name : List Nat) : List (Int × Value) → List Nat × Option String
  | [] => ([], none)
  | (t, v) :: rest =>
      let tb := [tagByte t]
      match encodeName name with
      | (nb, some e) => (tb ++ nb, some e)
      | (nb, none) =>
          match encodeValue t v with
          | (vb, some e) => (tb ++ nb ++ vb, some e)
          | (vb, none) =>
              let r := encodeValuesLoop [] rest
              (tb ++ nb ++ vb ++ r.1, r.2)
termination_by l => tvListSize l
decreasing_by
  all_goals (simp [tvListSize]; try omega)

/-- `messageEncoder.encodeAttr` (src/encoder.go lines 69-104). -/
def encodeAttr (a : Attr) : List Nat × Option String :=
  if a.values.isEmpty then ([], some "Attribute without value")
  else encodeValuesLoop a.name a.values
termination_by attrSize a
decreasing_by
  simp [attrSize]
  try omega

/-- `messageEncoder.encodeCollection` (src/encoder.go lines 180-199):
one `MemberAttrName` attribute per member followed by the member values
as a nameless attribute, terminated by a nameless `EndCollection`. -/
def encodeCollection : List Attr → List Nat × Option String
  | [] => encodeAttr (.mk [] [(TagEndCollection, .void)])
  | attr :: rest =>
      if attr.name.isEmpty then ([], some "Collection member without name")
      else
        match encodeAttr (.mk [] [(TagMemberName, .str attr.name)]) with
        | (b1, some e) => (b1, some e)
        | (b1, none) =>
            match encodeAttr (.mk [] attr.values) with
            | (b2, some e) => (b1 ++ b2, some e)
            | (b2, none) =>
                let r := encodeCollection rest
                (b1 ++ b2 ++ r.1, r.2)
termination_by c => attrListSize c
decreasing_by
  all_goals (simp [attrListSize, attrListSize_cons, attrSize, Attr.values,
    tvListSize, valueSize_str, valueSize_void]; try omega)
end

/-- The attribute loop of `messageEncoder.encode` (src/encoder.go lines
47-53).  Faithful to the source: the loop does not stop at a failed
attribute, so a later attribute of the same group overwrites `err`;
the bytes written by every iteration stay in the stream. -/
def encodeGroupAttrs : List Attr → List Nat × Option String
  | [] => ([], none)
  | a :: rest =>
      let r := if a.name.isEmpty then (([] : List Nat), some "Attribute without name")
               else encodeAttr a
      let rr := encodeGroupAttrs rest
      (r.1 ++ rr.1, if rest.isEmpty then r.2 else rr.2)

/-- The group loop of `messageEncoder.encode` (src/encoder.go lines
44-59): groups are encoded in `attrGroups` order and the loop breaks on
a (surviving) error. -/
def encodeGroupsLoop : List (Int × List Attr) → List Nat × Option String
  | [] => ([], none)
  | (g, attrs) :: rest =>
      let r := encodeGroupAttrs attrs
      let bytes := tagByte g :: r.1
      match r.2 with
      | some e => (bytes, some e)
      | none =>
          let rr := encodeGroupsLoop rest
          (bytes ++ rr.1, rr.2)

/-- `messageEncoder.encode` (src/encoder.go lines 24-66): header,
groups, `TagEnd`. -/
def messageEncode (m : Msg) : List Nat × Option String :=
  let hdr := bytes16 (m.version % 65536) ++ bytes16 (m.code % 65536) ++
    bytes32 (m.requestID % 4294967296)
  let r := encodeGroupsLoop (attrGroups m)
  match r.2 with
  | some e => (hdr ++ r.1, some e)
  | none => (hdr ++ r.1 ++ [tagByte TagEnd], none)

/-! ## Stream decoder (src/unnamed/part_005, first part)

The Go decoder pulls bytes from an `io.Reader`; here the unread input
is part of the decoder state.  `tagOff` is instrumentation recording the
byte offset of the last tag byte read (the quantity §6.3 of the spec
speaks about); the Go struct has only `off` and `cnt`. -/

structure DecSt where
  input : List Nat
  off : Nat
  cnt : Nat
  tagOff : Nat
deriving Repr

/-- `messageDecoder.read` (src/unnamed/part_005 lines 315-331): sets
`off` to the count before the read; on a short source the available
bytes are consumed first, so on EOF `off` ends at the stream end. -/
def readBytes (n : Nat) (s : DecSt) : Except String (List Nat) × DecSt :=
  if n ≤ s.input.length then
    (.ok (s.input.take n),
     { s with input := s.input.drop n, off := s.cnt, cnt := s.cnt + n })
  else
    (.error "EOF",
     { s with input := [], off := s.cnt + s.input.length, cnt := s.cnt + s.input.length })

/-- `messageDecoder.decodeU8`. -/
def decodeU8 (s : DecSt) : Except String Nat × DecSt :=
  match readBytes 1 s with
  | (.ok bs, s1) => (.ok (bs.getD 0 0), s1)
  | (.error e, s1) => (.error e, s1)

/-- `messageDecoder.decodeTag`; additionally records the tag byte's
offset in the instrumentation field. -/
def decodeTag (s : DecSt) : Except String Int × DecSt :=
  match decodeU8 s with
  | (.ok b, s1) => (.ok (b : Int), { s1 with tagOff := s.cnt })
  | (.error e, s1) => (.error e, s1)

/-- `messageDecoder.decodeU16`. -/
def decodeU16 (s : DecSt) : Except String Nat × DecSt :=
  match readBytes 2 s with
  | (.ok bs, s1) => (.ok (be16 bs), s1)
  | (.error e, s1) => (.error e, s1)

/-- `messageDecoder.decodeU32`. -/
def decodeU32 (s : DecSt) : Except String Nat × DecSt :=
  match readBytes 4 s with
  | (.ok bs, s1) => (.ok (be32 bs), s1)
  | (.error e, s1) => (.error e, s1)

/-- `messageDecoder.decodeBytes`: a 16-bit length followed by that many
bytes. -/
def decodeBytes (s : DecSt) : Except String (List Nat) × DecSt :=
  match decodeU16 s with
  | (.ok len, s1) => readBytes len s1
  | (.error e, s1) => (.error e, s1)

/-- Result of a decoding step: success or Go error, both carrying the
decoder state, or a Go panic (which does not reach the error path). -/
inductive DRes (α : Type) where
  | ok (a : α) (s : DecSt)
  | err (e : String) (s : DecSt)
  | crash (e : String)

/-- Result of `Attribute.unpack`. -/
inductive URes where
  | ok (tv : Int × Value)
  | err (e : String)
  | crash (e : String)

/-- Wraps a per-kind decode result as `unpack` does, prefixing errors
with the tag name. -/
def unpackWith (tag : Int) (r : Except String Value) : URes :=
  match r with
  | .ok v => .ok (tag, v)
  | .error e => .err (tagString tag ++ ": " ++ e)

/-- `Attribute.unpack` (src/unnamed/part_002): dispatch on the tag's
type to the per-kind value decoders; Void and Collection types record a
Void value; an Invalid type panics in Go. -/
def unpack (tag : Int) (value : List Nat) : URes :=
  match tagType tag with
  | .void => .ok (tag, .void)
  | .collection => .ok (tag, .void)
  | .integer => unpackWith tag (integerDecode value)
  | .boolean => unpackWith tag (booleanDecode value)
  | .string => unpackWith tag (stringDecode value)
  | .dateTime => unpackWith tag (timeDecode value)
  | .resolution => unpackWith tag (resolutionDecode value)
  | .range => unpackWith tag (rangeDecode value)
  | .textWithLang => unpackWith tag (textWithLangDecode value)
  | .binary => unpackWith tag (binaryDecode value)
  | .invalid =>
      .crash ("(Attribute) uppack(): tag=" ++ tagString tag ++ " type=" ++ (tagType tag).str)

/-- `messageDecoder.decodeAttribute` (src/unnamed/part_005 lines
220-265): name, raw value, the `TagExtension` envelope, then `unpack`. -/
def decodeAttribute (tag : Int) (s : DecSt) : DRes (List Nat × (Int × Value)) :=
  match decodeBytes s with
  | (.error e, s1) => .err e s1
  | (.ok name, s1) =>
    match decodeBytes s1 with
    | (.error e, s2) => .err e s2
    | (.ok value, s2) =>
        if tag = TagExtension then
          if value.length < 4 then .err "Extension tag truncated" s2
          else
            let t := be32 value
            let value := value.drop 4
            if t > 0x7fffffff then .err "Extension tag out of range" s2
            else
              match unpack (Int.ofNat t) value with
              | .ok tv => .ok (name, tv) s2
              | .err e => .err e s2
              | .crash e => .crash e
        else
          match unpack tag value with
          | .ok tv => .ok (name, tv) s2
          | .err e => .err e s2
          | .crash e => .crash e

/-- Appends a value to the last attribute of a list (the Go
`collection[l-1].Values.Add` / `prev.Values.Add` pattern). -/
def appendValueLast : List Attr → (Int × Value) → List Attr
  | [], _ => []
  | [a], tv => [.mk a.name (a.values ++ [tv])]
  | a :: rest, tv => a :: appendValueLast rest tv

/-- `messageDecoder.decodeCollection` (src/unnamed/part_005 lines
132-199), with the accumulated collection as a parameter and a fuel
argument for the read loop (an iteration always consumes at least the
tag byte, so `input.length + 1` fuel cannot run out). -/
def decodeCollectionLoop (fuel : Nat) (collection : List Attr) (s : DecSt) :
    DRes (List Attr) :=
  match fuel with
  | 0 => .crash "fuel exhausted"
  | fuel + 1 =>
    match decodeTag s with
    | (.error e, s1) => .err e s1
    | (.ok tag, s1) =>
      -- Delimiter cannot be inside a collection
      if tagIsDelimiter tag then
        .err ("collection: unexpected " ++ tagString tag) s1
      else
        -- about to leave the current attribute: it needs at least one value
        if (tag = TagMemberName || tag = TagEndCollection) &&
            (match collection.getLast? with
             | some a => a.values.isEmpty
             | none => false) then
          .err ("collection: unexpected " ++ tagString tag ++ ", expected value tag") s1
        else
          match decodeAttribute tag s1 with
          | .err e s2 => .err e s2
          | .crash e => .crash e
          | .ok (_, tv) s2 =>
              if tag = TagEndCollection then .ok collection s2
              else if tag = TagMemberName then
                -- attr.Name = string(attr.Values[0].V.(String)) — Go type assertion
                match tv.2 with
                | .str mname =>
                    if mname.isEmpty then
                      .err ("collection: " ++ tagString tag ++
                        " contains empty attribute name") s2
                    else decodeCollectionLoop fuel (collection ++ [.mk mname []]) s2
                | _ => .crash "interface conversion: value is not String"
              else if collection.isEmpty then
                .err ("collection: unexpected " ++ tagString tag ++ ", expected " ++
                  tagString TagMemberName) s2
              else if tag = TagBeginCollection then
                match decodeCollectionLoop fuel [] s2 with
                | .err e s3 => .err e s3
                | .crash e => .crash e
                | .ok inner s3 =>
                    decodeCollectionLoop fuel
                      (appendValueLast collection (tag, .collection inner)) s3
              else
                decodeCollectionLoop fuel (appendValueLast collection (tag, tv.2)) s2

/-- The group fields of a `Message`. -/
inductive GIdx where
  | op | job | printer | unsup | subscr | event | resrc | doc | sys
  | f11 | f12 | f13 | f14 | f15
deriving DecidableEq, Repr

/-- Reads a group field. -/
def Msg.getG (m : Msg) : GIdx → List Attr
  | .op => m.operation
  | .job => m.job
  | .printer => m.printer
  | .unsup => m.unsupported
  | .subscr => m.subscription
  | .event => m.eventNotification
  | .resrc => m.resource
  | .doc => m.document
  | .sys => m.system
  | .f11 => m.future11
  | .f12 => m.future12
  | .f13 => m.future13
  | .f14 => m.future14
  | .f15 => m.future15

/-- Writes a group field. -/
def Msg.setG (m : Msg) : GIdx → List Attr → Msg
  | .op, l => { m with operation := l }
  | .job, l => { m with job := l }
  | .printer, l => { m with printer := l }
  | .unsup, l => { m with unsupported := l }
  | .subscr, l => { m with subscription := l }
  | .event, l => { m with eventNotification := l }
  | .resrc, l => { m with resource := l }
  | .doc, l => { m with document := l }
  | .sys, l => { m with system := l }
  | .f11, l => { m with future11 := l }
  | .f12, l => { m with future12 := l }
  | .f13, l => { m with future13 := l }
  | .f14, l => { m with future14 := l }
  | .f15, l => { m with future15 := l }

/-- The group-delimiter cases of the decoder's tag switch. -/
def groupTagToIdx (t : Int) : Option GIdx :=
  if t = TagOperationGroup then some .op
  else if t = TagJobGroup then some .job
  else if t = TagPrinterGroup then some .printer
  else if t = TagUnsupportedGroup then some .unsup
  else if t = TagSubscriptionGroup then some .subscr
  else if t = TagEventNotificationGroup then some .event
  else if t = TagResourceGroup then some .resrc
  else if t = TagDocumentGroup then some .doc
  else if t = TagSystemGroup then some .sys
  else if t = TagFuture11Group then some .f11
  else if t = TagFuture12Group then some .f12
  else if t = TagFuture13Group then some .f13
  else if t = TagFuture14Group then some .f14
  else if t = TagFuture15Group then some .f15
  else none

/-- `group.Add(attr)` on a message field. -/
def addAttr (m : Msg) (g : GIdx) (a : Attr) : Msg :=
  m.setG g (m.getG g ++ [a])

/-- `prev.Values.Add(...)`: appends a continuation value to the last
attribute of the current group. -/
def addToPrev (m : Msg) (g : GIdx) (tv : Int × Value) : Msg :=
  m.setG g (appendValueLast (m.getG g) tv)

/-- The attribute-reading loop of `messageDecoder.decode`
(src/unnamed/part_005 lines 45-122).  `group` is the current group
pointer; `prev` records which group's last attribute receives
continuation values (`none` models the nil pointer). -/
def decodeLoop (fuel : Nat) (s : DecSt) (m : Msg) (group : Option GIdx)
    (prev : Option GIdx) : DRes Msg :=
  match fuel with
  | 0 => .crash "fuel exhausted"
  | fuel + 1 =>
    match decodeTag s with
    | (.error e, s1) => .err e s1
    | (.ok tag, s1) =>
      let prev := if tagIsDelimiter tag then none else prev
      if tag = TagZero then .err "Invalid tag 0" s1
      else if tag = TagEnd then .ok m s1
      else
        match groupTagToIdx tag with
        | some gi => decodeLoop fuel s1 m (some gi) prev
        | none =>
            if tag = TagMemberName || tag = TagEndCollection then
              .err ("Unexpected tag " ++ tagString tag) s1
            else
              match decodeAttribute tag s1 with
              | .err e s2 => .err e s2
              | .crash e => .crash e
              | .ok (name, tv) s2 =>
                  let vres : DRes (Int × Value) :=
                    if tag = TagBeginCollection then
                      match decodeCollectionLoop fuel [] s2 with
                      | .ok c s3 => .ok (tv.1, .collection c) s3
                      | .err e s3 => .err e s3
                      | .crash e => .crash e
                    else .ok tv s2
                  match vres with
                  | .err e s3 => .err e s3
                  | .crash e => .crash e
                  | .ok tv s3 =>
                      if name.isEmpty then
                        match prev with
                        | some gi => decodeLoop fuel s3 (addToPrev m gi tv) group prev
                        | none =>
                            .err "Additional value without preceding attribute" s3
                      else
                        match group with
                        | some gi =>
                            decodeLoop fuel s3 (addAttr m gi (.mk name [tv]))
                              group (some gi)
                        | none => .err "Attribute without a group" s3

/-- The body of `messageDecoder.decode` (src/unnamed/part_005 lines
26-122): header fields, then the attribute loop. -/
def messageDecodeCore (input : List Nat) : DRes Msg :=
  let s0 : DecSt := { input := input, off := 0, cnt := 0, tagOff := 0 }
  match decodeU16 s0 with
  | (.error e, s1) => .err e s1
  | (.ok ver, s1) =>
    match decodeU16 s1 with
    | (.error e, s2) => .err e s2
    | (.ok code, s2) =>
      match decodeU32 s2 with
      | (.error e, s3) => .err e s3
      | (.ok rid, s3) =>
          decodeLoop (s3.input.length + 1) s3
            { version := ver, code := code, requestID := rid } none none

/-- `messageDecoder.decode` (src/unnamed/part_005 lines 26-129): the
body plus the error wrapper appending ` at 0x<off>` (lines 124-126). -/
def messageDecode (input : List Nat) : DRes Msg :=
  match messageDecodeCore input with
  | .err e s => .err (e ++ " at 0x" ++ hexStr s.off) s
  | other => other

/-- An attribute name one byte over the 16-bit length limit (65536
bytes). -/
def longName : List Nat := 97 :: List.replicate 65535 97

/-! ## Comparators: Equal (src/value.go, src/group.go, src/message.go)

`Values.Equal` and `ValueEqual` are translated from src/value.go (first
variant), `Group`/`Groups` comparators from src/group.go and
`Message.Equal` from src/message.go.  Go compares `Time` values by
instant (`time.Time.Equal`); the claims settled here apply time equality
only to values with identical fields, where instant equality and field
equality agree, so time values are compared by their fields. -/

mutual
/-- `ValueEqual` (src/value.go): false on differing types; Binary by
byte equality; Collection recursively; others by Go interface
equality (structural). -/
def valueEqB : Value → Value → Bool
  | .void, .void => true
  | .integer a, .integer b => decide (a = b)
  | .boolean a, .boolean b => decide (a = b)
  | .str a, .str b => decide (a = b)
  | .time a, .time b => decide (a = b)
  | .resolution x y u, .resolution x2 y2 u2 =>
      decide (x = x2) && decide (y = y2) && decide (u = u2)
  | .range l u, .range l2 u2 => decide (l = l2) && decide (u = u2)
  | .textWithLang l t, .textWithLang l2 t2 => decide (l = l2) && decide (t = t2)
  | .binary a, .binary b => decide (a = b)
  | .collection c1, .collection c2 => attrListEqB c1 c2
  | _, _ => false
termination_by v _ => valueSize v
decreasing_by
  all_goals (simp [valueSize]; try omega)

/-- `Values.Equal` (src/value.go): same length, pairwise equal tags and
`ValueEqual` values. -/
def tvListEqB : List (Int × Value) → List (Int × Value) → Bool
  | [], [] => true
  | (t1, v1) :: r1, (t2, v2) :: r2 =>
      decide (t1 = t2) && valueEqB v1 v2 && tvListEqB r1 r2
  | _, _ => false
termination_by l _ => tvListSize l
decreasing_by
  all_goals (simp [tvListSize]; try omega)

/-- `Attributes.Equal` — absent from src/ (only callers are present).
Modelled from the spec: attributes pairwise equal in order, each
attribute by name equality and `Values.Equal`. -/
def attrListEqB : List Attr → List Attr → Bool
  | [], [] => true
  | .mk n1 vs1 :: r1, .mk n2 vs2 :: r2 =>
      decide (n1 = n2) && tvListEqB vs1 vs2 && attrListEqB r1 r2
  | _, _ => false
termination_by l _ => attrListSize l
decreasing_by
  all_goals (simp [attrListSize_cons, attrSize, Attr.values]; try omega)
end

/-! ## Comparators: Similar

`Attributes.Similar`, `Attribute.Similar` and `Values.Similar` are
absent from src/ (src/group.go calls `Attrs.Similar`).  Modelled from
the spec: attributes are compared as a multiset ignoring order —
realized by stable-sorting both sides by name — each attribute matched
by name and by values similarity, where a String and a Binary carrying
the same bytes are interchangeable. -/

/-- Lexicographic byte-order comparison of names (Go string `<=`). -/
def nameLeB : List Nat → List Nat → Bool
  | [], _ => true
  | _ :: _, [] => false
  | a :: as_, b :: bs =>
      if a < b then true
      else if b < a then false
      else nameLeB as_ bs

/-- One step of the stable insertion sort by name: insert before the
first strictly greater element, after equal names. -/
def orderedInsertAttr (a : Attr) : List Attr → List Attr
  | [] => [a]
  | b :: l => if nameLeB a.name b.name then a :: b :: l else b :: orderedInsertAttr a l

/-- The stable sort by name inside `Attributes.Similar`
(`sort.SliceStable` with less `attrs[i].Name < attrs[j].Name`). -/
def sortAttrsByName : List Attr → List Attr
  | [] => []
  | a :: l => orderedInsertAttr a (sortAttrsByName l)

theorem attrListSize_orderedInsertAttr (a : Attr) (l : List Attr) :
    attrListSize (orderedInsertAttr a l) = attrListSize (a :: l) := by
  induction l with
  | nil => rfl
  | cons b t ih =>
      by_cases h : nameLeB a.name b.name
      · simp [orderedInsertAttr, h]
      · simp only [orderedInsertAttr, if_neg h]
        rw [attrListSize_cons, ih]
        rw [attrListSize_cons, attrListSize_cons, attrListSize_cons]
        omega

theorem attrListSize_sortAttrsByName (l : List Attr) :
    attrListSize (sortAttrsByName l) = attrListSize l := by
  induction l with
  | nil => rfl
  | cons a t ih =>
      simp only [sortAttrsByName]
      rw [attrListSize_orderedInsertAttr, attrListSize_cons, ih, attrListSize_cons]

mutual
/-- `ValueSimilar` — modelled from the spec: a String and a Binary with
the same bytes are similar; collections are similar when their members
are; otherwise similarity is equality. -/
def valueSimilarB : Value → Value → Bool
  | .str a, .binary b => decide (a = b)
  | .binary a, .str b => decide (a = b)
  | .collection c1, .collection c2 =>
      decide (c1.length = c2.length) &&
      attrPairsSimilarB (sortAttrsByName c1) (sortAttrsByName c2)
  | v1, v2 => valueEqB v1 v2
termination_by v _ => valueSize v
decreasing_by
  all_goals simp [valueSize, attrListSize_sortAttrsByName]

/-- `Values.Similar` — modelled from the spec: pairwise in order, same
tags, values compared by `ValueSimilar`. -/
def tvListSimilarB : List (Int × Value) → List (Int × Value) → Bool
  | [], [] => true
  | (t1, v1) :: r1, (t2, v2) :: r2 =>
      decide (t1 = t2) && valueSimilarB v1 v2 && tvListSimilarB r1 r2
  | _, _ => false
termination_by l _ => tvListSize l
decreasing_by
  all_goals simp [tvListSize]; try omega

/-- The pairwise comparison of `Attributes.Similar`, applied after the
stable sort by name. -/
def attrPairsSimilarB : List Attr → List Attr → Bool
  | [], [] => true
  | .mk n1 vs1 :: r1, .mk n2 vs2 :: r2 =>
      decide (n1 = n2) && tvListSimilarB vs1 vs2 && attrPairsSimilarB r1 r2
  | _, _ => false
termination_by l _ => attrListSize l
decreasing_by
  all_goals (simp [attrListSize_cons, attrSize, Attr.values]; try omega)
end

/-- `Attributes.Similar` — modelled from the spec: same number of
attributes, then pairwise matching after stable-sorting both sides by
name. -/
def attrsSimilarB (c1 c2 : List Attr) : Bool :=
  decide (c1.length = c2.length) &&
  attrPairsSimilarB (sortAttrsByName c1) (sortAttrsByName c2)

/-! ## Groups (src/group.go) -/

/-- `Group` (src/group.go): a group tag with its attributes. -/
structure Group where
  tag : Int
  attrs : List Attr

/-- One step of the stable insertion sort by tag: insert before the
first strictly greater tag, after equal tags. -/
def orderedInsertGroup (g : Group) : List Group → List Group
  | [] => [g]
  | b :: l => if g.tag ≤ b.tag then g :: b :: l else b :: orderedInsertGroup g l

/-- The stable sort of `Groups.Similar` (`sort.SliceStable` with less
`groups[i].Tag < groups[j].Tag`). -/
def sortGroupsByTag : List Group → List Group
  | [] => []
  | g :: l => orderedInsertGroup g (sortGroupsByTag l)

/-- `Group.Equal` (src/group.go lines 37-39). -/
def groupEqualB (g g2 : Group) : Bool :=
  decide (g.tag = g2.tag) && attrListEqB g.attrs g2.attrs

/-- `Group.Similar` (src/group.go lines 42-44). -/
def groupSimilarB (g g2 : Group) : Bool :=
  decide (g.tag = g2.tag) && attrsSimilarB g.attrs g2.attrs

/-- The pairwise loop of `Groups.Equal`. -/
def groupPairsEqualB : List Group → List Group → Bool
  | [], [] => true
  | g :: r, g2 :: r2 => groupEqualB g g2 && groupPairsEqualB r r2
  | _, _ => false

/-- `Groups.Equal` (src/group.go lines 52-65): length check, then
pairwise `Group.Equal`. -/
def groupsEqualB (l1 l2 : List Group) : Bool :=
  decide (l1.length = l2.length) && groupPairsEqualB l1 l2

/-- The pairwise loop of `Groups.Similar`. -/
def groupPairsSimilarB : List Group → List Group → Bool
  | [], [] => true
  | g :: r, g2 :: r2 => groupSimilarB g g2 && groupPairsSimilarB r r2
  | _, _ => false

/-- `Groups.Similar` (src/group.go lines 74-101): length check, stable
sort of clones of both sequences by tag, then pairwise
`Group.Similar`. -/
def groupsSimilarB (l1 l2 : List Group) : Bool :=
  decide (l1.length = l2.length) &&
  groupPairsSimilarB (sortGroupsByTag l1) (sortGroupsByTag l2)

/-! ## Heap model for `Groups.Similar` aliasing (src/group.go)

Go slices are references; `Groups.Similar` sorts **clones** of its
receiver and argument (`groups = groups.clone()`), so the caller's
slices stay untouched.  The heap holds the slice contents at integer
references. -/

/-- A heap of `Groups` slices. -/
abbrev GHeap := List (List Group)

/-- Reads the slice at reference `r`. -/
def readG : GHeap → Nat → List Group
  | [], _ => []
  | v :: _, 0 => v
  | _ :: t, n + 1 => readG t n

/-- Overwrites the slice at reference `r` (in-place mutation). -/
def writeG : GHeap → Nat → List Group → GHeap
  | [], _, _ => []
  | _ :: t, 0, v => v :: t
  | a :: t, n + 1, v => a :: writeG t n v

/-- `Groups.clone` (src/group.go lines 104-108): allocates a fresh
slice and copies the contents. -/
def cloneG (h : GHeap) (r : Nat) : GHeap × Nat :=
  (h ++ [readG h r], h.length)

/-- `sort.SliceStable(groups, tag-less)` mutating the slice at `r`. -/
def sortG (h : GHeap) (r : Nat) : GHeap :=
  writeG h r (sortGroupsByTag (readG h r))

/-- `Groups.Similar` as it executes on the heap: length check, clone
both, stable-sort the clones in place, compare pairwise. -/
def similarG (h : GHeap) (r1 r2 : Nat) : GHeap × Bool :=
  if (readG h r1).length ≠ (readG h r2).length then (h, false)
  else
    let a1 := cloneG h r1
    let a2 := cloneG a1.1 r2
    let h3 := sortG a2.1 a1.2
    let h4 := sortG h3 a2.2
    (h4, groupPairsSimilarB (readG h4 a1.2) (readG h4 a2.2))

/-! ## Well-formedness for the round-trip (amended C1 hypothesis) -/

/-- Value tags whose encoding survives the decoder unchanged: one byte
(`< 0x100`), not a delimiter (`≥ 0x10`), and none of the tags the
decoder treats specially (`TagMemberName`, `TagEndCollection`,
`TagExtension`). -/
def wfValueTag (t : Int) : Bool :=
  decide (0x10 ≤ t) && decide (t < 0x100) &&
  decide (t ≠ TagMemberName) && decide (t ≠ TagEndCollection) &&
  decide (t ≠ TagExtension)

mutual
/-- Per-kind payload constraints under which the wire encoding decodes
back to the same value (fixed-width truncations cannot fire, DateTime
fields are in range and minute/decisecond aligned, lengths fit their
16-bit fields). -/
def wfPayload : Value → Bool
  | .void => true
  | .integer n => decide (-2147483648 ≤ n) && decide (n < 2147483648)
  | .boolean _ => true
  | .str s => decide (s.length < 65536)
  | .time t =>
      decide (0 ≤ t.year) && decide (t.year < 65536) &&
      decide (1 ≤ t.month) && decide (t.month ≤ 12) &&
      decide (1 ≤ t.day) && decide (t.day ≤ 31) &&
      decide (t.hour ≤ 23) && decide (t.minute ≤ 59) && decide (t.second ≤ 60) &&
      decide (t.nsec % 100000000 = 0) && decide (t.nsec / 100000000 ≤ 9) &&
      decide (t.zone.natAbs % 60 = 0) && decide (t.zone.natAbs / 3600 ≤ 13)
  | .resolution x y u =>
      decide (0 ≤ x) && decide (x < 4294967296) &&
      decide (0 ≤ y) && decide (y < 4294967296) && decide (u < 256)
  | .range l u =>
      decide (0 ≤ l) && decide (l < 4294967296) &&
      decide (0 ≤ u) && decide (u < 4294967296)
  | .textWithLang lang text =>
      decide (lang.length < 65536) && decide (text.length < 65536) &&
      decide (4 + lang.length + text.length ≤ 65535)
  | .binary d => decide (d.length < 65536)
  | .collection c => wfAttrList c
termination_by v => valueSize v
decreasing_by
  all_goals (simp [valueSize]; try omega)

/-- Well-formed tagged values: survivable tag, tag type matching the
value type, payload constraints. -/
def wfTVList : List (Int × Value) → Bool
  | [] => true
  | (t, v) :: rest =>
      wfValueTag t && decide (tagType t = v.type) && wfPayload v && wfTVList rest
termination_by l => tvListSize l
decreasing_by
  all_goals (simp [tvListSize]; try omega)

/-- Well-formed attributes: non-empty name that fits 16 bits, at least
one value, all values well-formed. -/
def wfAttrList : List Attr → Bool
  | [] => true
  | .mk n vs :: rest =>
      decide (n ≠ []) && decide (n.length < 65536) && !vs.isEmpty &&
      wfTVList vs && wfAttrList rest
termination_by l => attrListSize l
decreasing_by
  all_goals (simp [attrListSize_cons, attrSize, Attr.values]; try omega)
end

/-- Amended well-formedness of a whole message: header fields fit their
Go fixed-width types and every group's attributes are well-formed. -/
def wfMsg (m : Msg) : Bool :=
  decide (m.version < 65536) && decide (m.code < 65536) &&
  decide (m.requestID < 4294967296) &&
  ((attrGroups m).all fun p => wfAttrList p.2)

/-! ## The claim's own well-formedness hypothesis (for the
counterexample).  Modelled from the claim's words: non-empty names, at
least one value per attribute, value `Type` matching the tag's `Type`,
names and encoded payloads within 16-bit lengths, collection members
named. -/

mutual
def claimWfPayload : Value → Bool
  | .collection c => claimWfAttrList c
  | v =>
      match valueEncode v with
      | .ok data => decide (data.length < 65536)
      | .error _ => false
termination_by v => valueSize v
decreasing_by
  all_goals (simp [valueSize]; try omega)

def claimWfTVList : List (Int × Value) → Bool
  | [] => true
  | (t, v) :: rest =>
      decide (tagType t = v.type) && claimWfPayload v && claimWfTVList rest
termination_by l => tvListSize l
decreasing_by
  all_goals (simp [tvListSize]; try omega)

def claimWfAttrList : List Attr → Bool
  | [] => true
  | .mk n vs :: rest =>
      decide (n ≠ []) && decide (n.length < 65536) && !vs.isEmpty &&
      claimWfTVList vs && claimWfAttrList rest
termination_by l => attrListSize l
decreasing_by
  all_goals (simp [attrListSize_cons, attrSize, Attr.values]; try omega)
end

/-- The claim's well-formedness of a message, as worded in the spec. -/
def claimWellFormed (m : Msg) : Bool :=
  decide (m.version < 65536) && decide (m.code < 65536) &&
  decide (m.requestID < 4294967296) &&
  ((attrGroups m).all fun p => claimWfAttrList p.2)

/-- The group-pair loop of `Message.Equal` (src/message.go lines
184-190), over the group representation of the embedded message. -/
def msgGroupPairsEqB : List (Int × List Attr) → List (Int × List Attr) → Bool
  | [], [] => true
  | (t1, a1) :: r1, (t2, a2) :: r2 =>
      decide (t1 = t2) && attrListEqB a1 a2 && msgGroupPairsEqB r1 r2
  | _, _ => false

/-- `Message.Equal` (src/message.go lines 170-192): header fields, then
group count and pairwise group tag / attribute equality. -/
def msgEqB (m1 m2 : Msg) : Bool :=
  decide (m1.version = m2.version) && decide (m1.code = m2.code) &&
  decide (m1.requestID = m2.requestID) &&
  decide ((attrGroups m1).length = (attrGroups m2).length) &&
  msgGroupPairsEqB (attrGroups m1) (attrGroups m2)

/-- The group switch of the decoder applied to one encoded group pair
(the `setG`/`getG` form of `group.Add`). -/
def applyGroup (m : Msg) (p : Int × List Attr) : Msg :=
  match groupTagToIdx p.1 with
  | some gi => m.setG gi (m.getG gi ++ p.2)
  | none => m

/-- Decoder effect of a list of encoded group pairs. -/
def applyGroups : Msg → List (Int × List Attr) → Msg
  | m, [] => m
  | m, p :: rest => applyGroups (applyGroup m p) rest

/-- Counterexample message for the round-trip claim: a single operation
attribute whose value is claim-well-formed but carries the
`EndCollection` tag, which the decoder always rejects. -/
def mCex : Msg :=
  { version := 0x0200, code := 2, requestID := 1,
    operation := [Attr.mk [97] [(TagEndCollection, Value.void)]] }

/-- Witness message for the amended round-trip: an Integer attribute and
a collection attribute. -/
def mWit : Msg :=
  { version := 0x0200, code := 2, requestID := 1,
    operation := [Attr.mk [97] [(TagInteger, Value.integer 5)]],
    job := [Attr.mk [98] [(TagBeginCollection,
      Value.collection [Attr.mk [99] [(TagName, Value.str [100])]])]] }

/-- Sample group: tag 1, attribute `a` = Integer 1. -/
def sampleA : Group := ⟨1, [Attr.mk [97] [(0x21, Value.integer 1)]]⟩

/-- Sample group: tag 1, attribute `b` = Integer 2. -/
def sampleB : Group := ⟨1, [Attr.mk [98] [(0x21, Value.integer 2)]]⟩

/-- Sample group: tag 2, attribute `c` = Integer 3. -/
def sampleC : Group := ⟨2, [Attr.mk [99] [(0x21, Value.integer 3)]]⟩

/-! ## Claim C3: DateTime decode validation -/

/-- **C3** (code/test contradiction): the spec (and the test suite in
src/value_test.go) require per-field range validation with reasons
`bad <field> <n>`, but `Time.decode` in src/value.go performs none of
it: the 11-byte payload with month byte 0 decodes successfully instead
of failing with "bad month 0", and the payload with UTC sign byte `?`
fails with "invalid data format" instead of "bad UTC sign". -/
theorem timeDecode_skips_range_validation :
    timeDecode [0x07, 0xe9, 0, 0x1d, 0x10, 0x30, 0x35, 0x00, 43, 0x03, 0x00] =
      .ok (.time (timeDate 2025 0 29 16 48 53 0 10800)) ∧
    timeDecode [0x07, 0xe9, 0x03, 0x1d, 0x10, 0x30, 0x35, 0x00, 63, 0x03, 0x00] =
      .error "invalid data format" := by
  constructor <;> rfl

/-! ## Claim C6: encodeValue tag/type rules -/

theorem string_ne_of_take4 {s t : String} (h : s.data.take 4 ≠ t.data.take 4) :
    s ≠ t :=
  fun he => h (by rw [he])

theorem mismatchError_take4 (t : Int) (ty : Ty) :
    (mismatchError t ty).data.take 4 = ['T', 'a', 'g', ' '] := by
  simp only [mismatchError, String.data_append, List.append_assoc]
  rw [List.take_append_of_le_length (by decide)]
  decide

theorem valueEncode_error_cases (v : Value) (e : String)
    (h : valueEncode v = .error e) :
    e = "Lang exceeds 65535 bytes" ∨ e = "Text exceeds 65535 bytes" := by
  cases v <;> simp [valueEncode] at h
  case textWithLang lang text =>
    by_cases hl : lang.length > 65535
    · simp [hl] at h
      exact Or.inl h.symm
    · by_cases ht : text.length > 65535
      · simp [hl, ht] at h
        exact Or.inr h.symm
      · simp [hl, ht] at h

theorem valueEncode_error_ne_mismatch (v : Value) (e : String)
    (h : valueEncode v = .error e) (t : Int) (ty : Ty) :
    e ≠ mismatchError t ty := by
  rcases valueEncode_error_cases v e h with he | he <;>
    (subst he
     apply string_ne_of_take4
     rw [mismatchError_take4]
     decide)

theorem tooLong_ne_mismatch (n : Nat) (t : Int) (ty : Ty) :
    ("Attribute value exceeds " ++ toString n ++ " bytes") ≠ mismatchError t ty := by
  apply string_ne_of_take4
  rw [mismatchError_take4]
  simp only [String.data_append, List.append_assoc]
  rw [List.take_append_of_le_length (by decide)]
  decide

/-- **C6**: When encoding a single value: a tag of type Void has the
caller-supplied value overwritten with Void and an empty payload is
written without error, whatever value was supplied; a tag whose type is
neither Void nor Invalid and differs from the value's own type fails
with the tag/type mismatch error; and when the types agree the call
never fails with its tag/type mismatch error. -/
theorem encodeValue_tag_type_rules (t : Int) (v : Value) :
    (tagType t = .void → encodeValue t v = ([0, 0], none)) ∧
    (tagType t ≠ .void → tagType t ≠ .invalid → tagType t ≠ v.type →
      encodeValue t v = ([], some (mismatchError t v.type))) ∧
    (tagType t ≠ .void → tagType t ≠ .invalid → tagType t = v.type →
      encodeValue t v ≠ ([], some (mismatchError t v.type))) := by
  refine ⟨?_, ?_, ?_⟩
  · intro hty
    have hninv : tagType t ≠ Ty.invalid := by rw [hty]; decide
    rw [encodeValue]
    simp [hty, hninv, valueEncode, bytes16]
  · intro hnv hninv hne
    rw [encodeValue]
    simp [hnv, hninv, hne]
  · intro hnv hninv heq
    rw [encodeValue]
    cases hval : valueEncode v with
    | error e =>
        simp [hninv, hnv, ← heq, hval]
        exact valueEncode_error_ne_mismatch v e hval t _
    | ok data =>
        by_cases hlen : data.length > 65535
        · simp [hninv, hnv, ← heq, hval, hlen]
          exact tooLong_ne_mismatch data.length t _
        · cases v with
          | void => simp_all [Value.type]
          | collection c => simp_all [bytes16, Value.type, valueEncode]
          | _ =>
              try simp_all [bytes16, Value.type]
              try (rw [if_neg (show ¬(65535 < data.length) by omega)]; simp)

/-- Witness for C6: a Void tag (`TagUnknown`) with a non-Void supplied
value, a tag/type mismatch (`TagInteger` with a Boolean value), and an
agreeing pair (`TagInteger` with an Integer value). -/
theorem encodeValue_tag_type_rules_witness :
    encodeValue TagUnknown (.integer 5) = ([0, 0], none) ∧
    encodeValue TagInteger (.boolean true) =
      ([], some (mismatchError TagInteger Ty.boolean)) ∧
    encodeValue TagInteger (.integer 5) ≠
      ([], some (mismatchError TagInteger Ty.integer)) := by
  refine ⟨?_, ?_, ?_⟩
  · exact (encodeValue_tag_type_rules TagUnknown (.integer 5)).1 (by decide)
  · exact (encodeValue_tag_type_rules TagInteger (.boolean true)).2.1
      (by decide) (by decide) (by decide)
  · exact (encodeValue_tag_type_rules TagInteger (.integer 5)).2.2
      (by decide) (by decide) (by decide)

/-! ## Claim C8: MakeVersion -/

theorem makeVersion_arith (a b : Nat) (ha : a < 256) (hb : b < 256) :
    (a <<< 8) ||| b = a * 256 + b := by
  have h : (2 : Nat) ^ 8 * a + b = 2 ^ 8 * a ||| b :=
    Nat.mul_add_lt_is_or (by omega) a
  rw [Nat.shiftLeft_eq, Nat.mul_comm a (2 ^ 8)]
  omega

/-- **C8**: For every pair of 8-bit inputs,
`MakeVersion(major, minor) = (major << 8) | minor` — the major part is
shifted left by 8 bits, not 16 — and `Version.Major`/`Version.Minor`
recover the two parts: `Major(MakeVersion(a,b)) = a` and
`Minor(MakeVersion(a,b)) = b`. -/
theorem makeVersion_shift8_and_projections (a b : Nat) (ha : a < 256) (hb : b < 256) :
    MakeVersion a b = (a <<< 8) ||| b ∧
    versionMajor (MakeVersion a b) = a ∧
    versionMinor (MakeVersion a b) = b := by
  have harith := makeVersion_arith a b ha hb
  have hv : MakeVersion a b = a * 256 + b := by
    unfold MakeVersion
    rw [harith]
    omega
  refine ⟨by rw [hv, harith], ?_, ?_⟩
  · unfold versionMajor
    rw [hv, Nat.shiftRight_eq_div_pow]
    have : (a * 256 + b) / 2 ^ 8 = a := by omega
    rw [this]
    omega
  · unfold versionMinor
    rw [hv]
    omega

/-- Witness for C8 at `major = 2`, `minor = 1`. -/
theorem makeVersion_shift8_and_projections_witness :
    MakeVersion 2 1 = (2 <<< 8) ||| 1 ∧
    versionMajor (MakeVersion 2 1) = 2 ∧
    versionMinor (MakeVersion 2 1) = 1 :=
  makeVersion_shift8_and_projections 2 1 (by decide) (by decide)

/-! ## Claim C9: Boolean decode -/

/-- **C9**: Boolean value decode succeeds exactly on 1-byte inputs and
fails on every other length; on success, byte 0 decodes to false and
every nonzero byte — not only 1 — decodes to true, so no 1-byte payload
is ever rejected. -/
theorem booleanDecode_byte_semantics (bs : List Nat) :
    ((∃ v, booleanDecode bs = .ok v) ↔ bs.length = 1) ∧
    (∀ b : Nat, booleanDecode [b] = .ok (.boolean (decide (b ≠ 0)))) := by
  constructor
  · constructor
    · intro ⟨v, hv⟩
      by_contra hlen
      simp [booleanDecode, hlen] at hv
    · intro hlen
      refine ⟨.boolean (decide (bs.getD 0 0 ≠ 0)), ?_⟩
      simp [booleanDecode, hlen]
  · intro b
    simp [booleanDecode]

/-- Witness for C9 at the 1-byte payload `[7]` (nonzero decodes to true)
and the corresponding iff instance. -/
theorem booleanDecode_byte_semantics_witness :
    ((∃ v, booleanDecode [7] = .ok v) ↔ [7].length = 1) ∧
    booleanDecode [7] = .ok (.boolean true) := by
  refine ⟨(booleanDecode_byte_semantics [7]).1, ?_⟩
  have h := (booleanDecode_byte_semantics [7]).2 7
  simpa using h

/-! ## Decoder step lemmas -/

theorem readBytes_append (xs rest : List Nat) (s : DecSt) (n : Nat)
    (h : s.input = xs ++ rest) (hn : xs.length = n) :
    readBytes n s =
      (.ok xs, ⟨rest, s.cnt, s.cnt + n, s.tagOff⟩) := by
  subst hn
  have hle : xs.length ≤ s.input.length := by
    rw [h, List.length_append]; omega
  simp [readBytes, hle, h, List.take_left, List.drop_left]

theorem decodeTag_cons (b : Nat) (rest : List Nat) (s : DecSt)
    (h : s.input = b :: rest) :
    decodeTag s = (.ok (b : Int), ⟨rest, s.cnt, s.cnt + 1, s.cnt⟩) := by
  have hr := readBytes_append [b] rest s 1 (by simpa using h) rfl
  simp [decodeTag, decodeU8, hr]

theorem decodeU16_cons (b0 b1 : Nat) (rest : List Nat) (s : DecSt)
    (h : s.input = b0 :: b1 :: rest) :
    decodeU16 s = (.ok (256 * b0 + b1), ⟨rest, s.cnt, s.cnt + 2, s.tagOff⟩) := by
  have hr := readBytes_append [b0, b1] rest s 2 (by simpa using h) rfl
  simp [decodeU16, hr, be16]

theorem decodeU32_cons (b0 b1 b2 b3 : Nat) (rest : List Nat) (s : DecSt)
    (h : s.input = b0 :: b1 :: b2 :: b3 :: rest) :
    decodeU32 s =
      (.ok (16777216 * b0 + 65536 * b1 + 256 * b2 + b3),
       ⟨rest, s.cnt, s.cnt + 4, s.tagOff⟩) := by
  have hr := readBytes_append [b0, b1, b2, b3] rest s 4 (by simpa using h) rfl
  simp [decodeU32, hr, be32]

theorem be16_bytes16 (L : Nat) (h : L < 65536) :
    256 * (L / 256 % 256) + L % 256 = L := by
  omega

theorem decodeBytes_append (xs rest : List Nat) (s : DecSt)
    (hlen : xs.length < 65536)
    (h : s.input = bytes16 xs.length ++ (xs ++ rest)) :
    decodeBytes s = (.ok xs, ⟨rest, s.cnt + 2, s.cnt + 2 + xs.length, s.tagOff⟩) := by
  have h16 := decodeU16_cons (xs.length / 256 % 256) (xs.length % 256) (xs ++ rest) s
    (by simpa [bytes16] using h)
  have hrd := readBytes_append xs rest
    (⟨xs ++ rest, s.cnt, s.cnt + 2, s.tagOff⟩ : DecSt) xs.length rfl rfl
  simp only [decodeBytes, h16, be16_bytes16 xs.length hlen, hrd]

theorem decodeAttribute_ok (tag : Int) (nm vb rest : List Nat) (s : DecSt)
    (tv : Int × Value)
    (hnm : nm.length < 65536) (hvb : vb.length < 65536)
    (htag : tag ≠ TagExtension)
    (h : s.input = bytes16 nm.length ++ (nm ++ (bytes16 vb.length ++ (vb ++ rest))))
    (hu : unpack tag vb = .ok tv) :
    decodeAttribute tag s =
      .ok (nm, tv) ⟨rest, s.cnt + 4 + nm.length,
        s.cnt + 4 + nm.length + vb.length, s.tagOff⟩ := by
  have h1 := decodeBytes_append nm (bytes16 vb.length ++ (vb ++ rest)) s hnm h
  have h2 := decodeBytes_append vb rest
    (⟨bytes16 vb.length ++ (vb ++ rest), s.cnt + 2, s.cnt + 2 + nm.length,
      s.tagOff⟩ : DecSt) hvb rfl
  simp only [decodeAttribute, h1, h2, htag, if_false, hu]
  have e1 : s.cnt + 2 + nm.length + 2 = s.cnt + 4 + nm.length := by omega
  have e2 : s.cnt + 2 + nm.length + 2 + vb.length =
      s.cnt + 4 + nm.length + vb.length := by omega
  simp [e1, e2]

theorem ne_small (t c : Int) (hc : t < 0 ∨ 16 ≤ t) (h0 : 0 ≤ c) (h1 : c < 16) :
    t ≠ c := by omega

theorem groupTagToIdx_none (t : Int) (hc : t < 0 ∨ 16 ≤ t) :
    groupTagToIdx t = none := by
  have h01 : t ≠ TagOperationGroup := ne_small t 0x01 hc (by decide) (by decide)
  have h02 : t ≠ TagJobGroup := ne_small t 0x02 hc (by decide) (by decide)
  have h03 : t ≠ TagPrinterGroup := ne_small t 0x04 hc (by decide) (by decide)
  have h04 : t ≠ TagUnsupportedGroup := ne_small t 0x05 hc (by decide) (by decide)
  have h05 : t ≠ TagSubscriptionGroup := ne_small t 0x06 hc (by decide) (by decide)
  have h06 : t ≠ TagEventNotificationGroup := ne_small t 0x07 hc (by decide) (by decide)
  have h07 : t ≠ TagResourceGroup := ne_small t 0x08 hc (by decide) (by decide)
  have h08 : t ≠ TagDocumentGroup := ne_small t 0x09 hc (by decide) (by decide)
  have h09 : t ≠ TagSystemGroup := ne_small t 0x0a hc (by decide) (by decide)
  have h10 : t ≠ TagFuture11Group := ne_small t 0x0b hc (by decide) (by decide)
  have h11 : t ≠ TagFuture12Group := ne_small t 0x0c hc (by decide) (by decide)
  have h12 : t ≠ TagFuture13Group := ne_small t 0x0d hc (by decide) (by decide)
  have h13 : t ≠ TagFuture14Group := ne_small t 0x0e hc (by decide) (by decide)
  have h14 : t ≠ TagFuture15Group := ne_small t 0x0f hc (by decide) (by decide)
  simp only [groupTagToIdx, if_neg h01, if_neg h02, if_neg h03, if_neg h04,
    if_neg h05, if_neg h06, if_neg h07, if_neg h08, if_neg h09, if_neg h10,
    if_neg h11, if_neg h12, if_neg h13, if_neg h14]

theorem groupTag_props {t : Int} {gi : GIdx} (h : groupTagToIdx t = some gi) :
    t ≠ TagZero ∧ t ≠ TagEnd ∧ tagIsDelimiter t = true := by
  refine ⟨?_, ?_, ?_⟩
  · rintro rfl
    rw [show groupTagToIdx TagZero = none from rfl] at h
    exact Option.noConfusion h
  · rintro rfl
    rw [show groupTagToIdx TagEnd = none from rfl] at h
    exact Option.noConfusion h
  · by_contra hnd
    have hc : t < 0 ∨ 16 ≤ t := by
      clear h
      simp only [tagIsDelimiter, Bool.and_eq_true, decide_eq_true_eq] at hnd
      omega
    rw [groupTagToIdx_none t hc] at h
    exact Option.noConfusion h

/-- One decoder-loop iteration: a group-delimiter tag selects the
current group and clears the previous-attribute pointer. -/
theorem decodeLoop_step_group (fuel : Nat) (s : DecSt) (b : Nat)
    (rest : List Nat) (m : Msg) (g p : Option GIdx) (gi : GIdx)
    (h : s.input = b :: rest) (hg : groupTagToIdx (b : Int) = some gi) :
    decodeLoop (fuel + 1) s m g p =
      decodeLoop fuel ⟨rest, s.cnt, s.cnt + 1, s.cnt⟩ m (some gi) none := by
  obtain ⟨hz, he, hd⟩ := groupTag_props hg
  simp only [decodeLoop, decodeTag_cons b rest s h, hd, hz, he, hg,
    if_false, if_true, ite_true, ite_false]

/-- One decoder-loop iteration: a `BeginCollection` attribute whose
collection body fails to parse propagates the body's error. -/
theorem decodeLoop_step_begincoll_err (fuel : Nat) (s : DecSt)
    (nm vb rest : List Nat) (m : Msg) (g p : Option GIdx)
    (e : String) (serr : DecSt)
    (hnm : nm.length < 65536) (hvb : vb.length < 65536)
    (h : s.input = 0x34 :: (bytes16 nm.length ++ (nm ++
      (bytes16 vb.length ++ (vb ++ rest)))))
    (hcoll : decodeCollectionLoop fuel []
      ⟨rest, s.cnt + 5 + nm.length, s.cnt + 5 + nm.length + vb.length, s.cnt⟩ =
        .err e serr) :
    decodeLoop (fuel + 1) s m g p = .err e serr := by
  have htag : decodeTag s = (.ok (0x34 : Int),
      ⟨bytes16 nm.length ++ (nm ++ (bytes16 vb.length ++ (vb ++ rest))),
       s.cnt, s.cnt + 1, s.cnt⟩) := decodeTag_cons 0x34 _ s h
  have hattr := decodeAttribute_ok 0x34 nm vb rest
    (⟨bytes16 nm.length ++ (nm ++ (bytes16 vb.length ++ (vb ++ rest))),
      s.cnt, s.cnt + 1, s.cnt⟩ : DecSt)
    ((0x34 : Int), Value.void) hnm hvb (by decide) rfl (by rfl)
  have h1 : s.cnt + 1 + 4 + nm.length = s.cnt + 5 + nm.length := by omega
  have h2 : s.cnt + 1 + 4 + nm.length + vb.length =
      s.cnt + 5 + nm.length + vb.length := by omega
  simp only [decodeLoop, htag, hattr, h1, h2, hcoll]
  simp [TagZero, TagEnd, TagMemberName, TagEndCollection, TagBeginCollection,
    tagIsDelimiter, groupTagToIdx, TagOperationGroup, TagJobGroup,
    TagPrinterGroup, TagUnsupportedGroup, TagSubscriptionGroup,
    TagEventNotificationGroup, TagResourceGroup, TagDocumentGroup,
    TagSystemGroup, TagFuture11Group, TagFuture12Group, TagFuture13Group,
    TagFuture14Group, TagFuture15Group]

/-- A collection body whose first tag is another `BeginCollection`,
with no `MemberAttrName` in between, is rejected. -/
theorem decodeCollectionLoop_nested_begin (fuel : Nat) (s : DecSt)
    (nm2 v2 rest : List Nat)
    (hnm2 : nm2.length < 65536) (hv2 : v2.length < 65536)
    (h : s.input = 0x34 :: (bytes16 nm2.length ++ (nm2 ++
      (bytes16 v2.length ++ (v2 ++ rest))))) :
    decodeCollectionLoop (fuel + 1) [] s =
      .err "collection: unexpected collection, expected memberAttrName"
        ⟨rest, s.cnt + 5 + nm2.length, s.cnt + 5 + nm2.length + v2.length, s.cnt⟩ := by
  have htag : decodeTag s = (.ok (0x34 : Int),
      ⟨bytes16 nm2.length ++ (nm2 ++ (bytes16 v2.length ++ (v2 ++ rest))),
       s.cnt, s.cnt + 1, s.cnt⟩) := decodeTag_cons 0x34 _ s h
  have hattr := decodeAttribute_ok 0x34 nm2 v2 rest
    (⟨bytes16 nm2.length ++ (nm2 ++ (bytes16 v2.length ++ (v2 ++ rest))),
      s.cnt, s.cnt + 1, s.cnt⟩ : DecSt)
    ((0x34 : Int), Value.void) hnm2 hv2 (by decide) rfl (by rfl)
  simp only [decodeCollectionLoop, htag, hattr]
  have hstr : "collection: unexpected " ++ tagString 52 ++ ", expected " ++
      tagString TagMemberName =
      "collection: unexpected collection, expected memberAttrName" := by rfl
  have h1 : s.cnt + 1 + 4 + nm2.length = s.cnt + 5 + nm2.length := by omega
  have h2 : s.cnt + 1 + 4 + nm2.length + v2.length =
      s.cnt + 5 + nm2.length + v2.length := by omega
  rw [hstr, h1, h2]
  simp [tagIsDelimiter, TagMemberName, TagEndCollection, TagBeginCollection]

theorem messageDecodeCore_header (h0 h1 h2 h3 h4 h5 h6 h7 : Nat) (tail : List Nat) :
    messageDecodeCore (h0 :: h1 :: h2 :: h3 :: h4 :: h5 :: h6 :: h7 :: tail) =
      decodeLoop (tail.length + 1) ⟨tail, 4, 8, 0⟩
        { version := 256 * h0 + h1, code := 256 * h2 + h3,
          requestID := 16777216 * h4 + 65536 * h5 + 256 * h6 + h7 } none none := by
  have d1 := decodeU16_cons h0 h1 (h2 :: h3 :: h4 :: h5 :: h6 :: h7 :: tail)
    ⟨h0 :: h1 :: h2 :: h3 :: h4 :: h5 :: h6 :: h7 :: tail, 0, 0, 0⟩ rfl
  have d2 := decodeU16_cons h2 h3 (h4 :: h5 :: h6 :: h7 :: tail)
    ⟨h2 :: h3 :: h4 :: h5 :: h6 :: h7 :: tail, 0, 2, 0⟩ rfl
  have d3 := decodeU32_cons h4 h5 h6 h7 tail
    ⟨h4 :: h5 :: h6 :: h7 :: tail, 2, 4, 0⟩ rfl
  simp only [messageDecodeCore, d1, d2, d3]

theorem decodeLoop_nested_collection (s : DecSt) (m : Msg) (gb : Nat) (gi : GIdx)
    (nm vb nm2 v2 rest : List Nat)
    (hg : groupTagToIdx (gb : Int) = some gi)
    (hnm : nm.length < 65536) (hvb : vb.length < 65536)
    (hnm2 : nm2.length < 65536) (hv2 : v2.length < 65536)
    (h : s.input = gb :: 0x34 :: (bytes16 nm.length ++ (nm ++ (bytes16 vb.length ++
      (vb ++ (0x34 :: (bytes16 nm2.length ++ (nm2 ++ (bytes16 v2.length ++
        (v2 ++ rest)))))))))) :
    decodeLoop (s.input.length + 1) s m none none =
      .err "collection: unexpected collection, expected memberAttrName"
        ⟨rest, s.cnt + 11 + nm.length + vb.length + nm2.length,
          s.cnt + 11 + nm.length + vb.length + nm2.length + v2.length,
          s.cnt + 6 + nm.length + vb.length⟩ := by
  have hcoll : decodeCollectionLoop
      ((bytes16 nm.length ++ (nm ++ (bytes16 vb.length ++ (vb ++ (0x34 ::
        (bytes16 nm2.length ++ (nm2 ++ (bytes16 v2.length ++
          (v2 ++ rest))))))))).length + 1)
      [] ⟨0x34 :: (bytes16 nm2.length ++ (nm2 ++ (bytes16 v2.length ++ (v2 ++ rest)))),
        s.cnt + 6 + nm.length, s.cnt + 6 + nm.length + vb.length, s.cnt + 1⟩ =
      .err "collection: unexpected collection, expected memberAttrName"
        ⟨rest, s.cnt + 11 + nm.length + vb.length + nm2.length,
          s.cnt + 11 + nm.length + vb.length + nm2.length + v2.length,
          s.cnt + 6 + nm.length + vb.length⟩ := by
    have hn := decodeCollectionLoop_nested_begin
      (bytes16 nm.length ++ (nm ++ (bytes16 vb.length ++ (vb ++ (0x34 ::
        (bytes16 nm2.length ++ (nm2 ++ (bytes16 v2.length ++ (v2 ++ rest))))))))).length
      ⟨0x34 :: (bytes16 nm2.length ++ (nm2 ++ (bytes16 v2.length ++ (v2 ++ rest)))),
        s.cnt + 6 + nm.length, s.cnt + 6 + nm.length + vb.length, s.cnt + 1⟩
      nm2 v2 rest hnm2 hv2 rfl
    rw [(by omega : s.cnt + 11 + nm.length + vb.length + nm2.length =
      s.cnt + 6 + nm.length + vb.length + 5 + nm2.length)]
    exact hn
  have step1 : decodeLoop ((bytes16 nm.length ++ (nm ++ (bytes16 vb.length ++ (vb ++
        (0x34 :: (bytes16 nm2.length ++ (nm2 ++ (bytes16 v2.length ++
          (v2 ++ rest))))))))).length + 2 + 1) s m none none =
      decodeLoop ((bytes16 nm.length ++ (nm ++ (bytes16 vb.length ++ (vb ++
        (0x34 :: (bytes16 nm2.length ++ (nm2 ++ (bytes16 v2.length ++
          (v2 ++ rest))))))))).length + 2)
        ⟨0x34 :: (bytes16 nm.length ++ (nm ++ (bytes16 vb.length ++ (vb ++
          (0x34 :: (bytes16 nm2.length ++ (nm2 ++ (bytes16 v2.length ++
            (v2 ++ rest))))))))), s.cnt, s.cnt + 1, s.cnt⟩ m (some gi) none :=
    decodeLoop_step_group _ s gb _ m none none gi h hg
  have step2 : decodeLoop ((bytes16 nm.length ++ (nm ++ (bytes16 vb.length ++ (vb ++
        (0x34 :: (bytes16 nm2.length ++ (nm2 ++ (bytes16 v2.length ++
          (v2 ++ rest))))))))).length + 2)
        ⟨0x34 :: (bytes16 nm.length ++ (nm ++ (bytes16 vb.length ++ (vb ++
          (0x34 :: (bytes16 nm2.length ++ (nm2 ++ (bytes16 v2.length ++
            (v2 ++ rest))))))))), s.cnt, s.cnt + 1, s.cnt⟩ m (some gi) none =
      .err "collection: unexpected collection, expected memberAttrName"
        ⟨rest, s.cnt + 11 + nm.length + vb.length + nm2.length,
          s.cnt + 11 + nm.length + vb.length + nm2.length + v2.length,
          s.cnt + 6 + nm.length + vb.length⟩ :=
    decodeLoop_step_begincoll_err
      ((bytes16 nm.length ++ (nm ++ (bytes16 vb.length ++ (vb ++
        (0x34 :: (bytes16 nm2.length ++ (nm2 ++ (bytes16 v2.length ++
          (v2 ++ rest))))))))).length + 1)
      ⟨0x34 :: (bytes16 nm.length ++ (nm ++ (bytes16 vb.length ++ (vb ++
        (0x34 :: (bytes16 nm2.length ++ (nm2 ++ (bytes16 v2.length ++
          (v2 ++ rest))))))))), s.cnt, s.cnt + 1, s.cnt⟩
      nm vb (0x34 :: (bytes16 nm2.length ++ (nm2 ++ (bytes16 v2.length ++
        (v2 ++ rest))))) m (some gi) none
      "collection: unexpected collection, expected memberAttrName"
      ⟨rest, s.cnt + 11 + nm.length + vb.length + nm2.length,
        s.cnt + 11 + nm.length + vb.length + nm2.length + v2.length,
        s.cnt + 6 + nm.length + vb.length⟩
      hnm hvb rfl hcoll
  rw [h]
  exact step1.trans step2

/-! ## Claim C5: nested BeginCollection without MemberAttrName -/

/-- **C5**: for every byte stream made of an arbitrary 8-byte header, a
group delimiter, then a `BeginCollection` attribute whose collection
body opens with a second `BeginCollection` (so no `MemberAttrName`
intervenes), the whole decode is rejected with the decoder's
unexpected-tag error for collections, and the error string ends with
` at 0x<offset>`. -/
theorem messageDecode_nested_collection_rejected
    (h0 h1 h2 h3 h4 h5 h6 h7 gb : Nat) (gi : GIdx)
    (nm vb nm2 v2 rest : List Nat)
    (hg : groupTagToIdx (gb : Int) = some gi)
    (hnm : nm.length < 65536) (hvb : vb.length < 65536)
    (hnm2 : nm2.length < 65536) (hv2 : v2.length < 65536) :
    messageDecode (h0 :: h1 :: h2 :: h3 :: h4 :: h5 :: h6 :: h7 :: gb :: 0x34 ::
        (bytes16 nm.length ++ (nm ++ (bytes16 vb.length ++ (vb ++ (0x34 ::
          (bytes16 nm2.length ++ (nm2 ++ (bytes16 v2.length ++
            (v2 ++ rest)))))))))) =
      .err ("collection: unexpected collection, expected memberAttrName at 0x" ++
          hexStr (19 + nm.length + vb.length + nm2.length))
        ⟨rest, 19 + nm.length + vb.length + nm2.length,
          19 + nm.length + vb.length + nm2.length + v2.length,
          14 + nm.length + vb.length⟩ := by
  have hb := decodeLoop_nested_collection
    ⟨gb :: 0x34 :: (bytes16 nm.length ++ (nm ++ (bytes16 vb.length ++ (vb ++ (0x34 ::
      (bytes16 nm2.length ++ (nm2 ++ (bytes16 v2.length ++ (v2 ++ rest))))))))),
      4, 8, 0⟩
    { version := 256 * h0 + h1, code := 256 * h2 + h3,
      requestID := 16777216 * h4 + 65536 * h5 + 256 * h6 + h7 }
    gb gi nm vb nm2 v2 rest hg hnm hvb hnm2 hv2 rfl
  have hcore : messageDecodeCore (h0 :: h1 :: h2 :: h3 :: h4 :: h5 :: h6 :: h7 ::
      gb :: 0x34 :: (bytes16 nm.length ++ (nm ++ (bytes16 vb.length ++ (vb ++ (0x34 ::
        (bytes16 nm2.length ++ (nm2 ++ (bytes16 v2.length ++ (v2 ++ rest)))))))))) =
      .err "collection: unexpected collection, expected memberAttrName"
        ⟨rest, 19 + nm.length + vb.length + nm2.length,
          19 + nm.length + vb.length + nm2.length + v2.length,
          14 + nm.length + vb.length⟩ := by
    rw [messageDecodeCore_header]
    exact hb
  unfold messageDecode
  rw [hcore]
  rfl

/-- Witness for C5: a version 1.1 get-printer-attributes-style header,
an operation group, then `BeginCollection` attribute `a` whose body
opens with a second `BeginCollection`; the decode fails at offset 0x14
with the collection unexpected-tag error. -/
theorem messageDecode_nested_collection_rejected_witness :
    messageDecode [1, 1, 0, 2, 0, 0, 0, 1, 1, 52, 0, 1, 97, 0, 0, 52, 0, 0, 0, 0] =
      .err "collection: unexpected collection, expected memberAttrName at 0x14"
        ⟨[], 20, 20, 15⟩ :=
  messageDecode_nested_collection_rejected 1 1 0 2 0 0 0 1 1 GIdx.op
    [97] [] [] [] [] (by decide) (by decide) (by decide) (by decide) (by decide)

/-! ## Claim C7: too-long name errors can be swallowed by the encoder -/

/-- **C7** (code bug): `longName` is longer than 65535 bytes, yet
encoding a message whose operation group holds an attribute with that
name followed by an ordinary attribute returns no error.  The attribute
loop of `messageEncoder.encode` (src/encoder.go lines 44-59) does not
stop at a failed attribute: the next attribute's success overwrites
`err`, the too-long error is lost, and the stray tag byte written for
the failed attribute stays in the stream. -/
theorem encode_swallows_too_long_name (bn : List Nat) (h : 65535 < bn.length) :
    (messageEncode
      { version := 0x0101, code := 2, requestID := 1,
        operation := [Attr.mk bn [(TagInteger, Value.integer 5)],
          Attr.mk [97] [(TagInteger, Value.integer 5)]] }).2 = none := by
  have hne : bn.isEmpty = false := by
    cases bn with
    | nil => simp at h
    | cons a l => rfl
  simp [messageEncode, attrGroups, encodeGroupsLoop, encodeGroupAttrs,
      encodeAttr, encodeValuesLoop, encodeName, encodeValue, valueEncode,
      tagType, Value.type, Attr.name, Attr.values, bytes16, bytes32,
      h, hne, tagIsDelimiter, tagByte, tagString,
      List.filter, TagZero, TagOperationGroup, TagJobGroup, TagEnd,
      TagPrinterGroup, TagUnsupportedGroup, TagSubscriptionGroup,
      TagEventNotificationGroup, TagResourceGroup, TagDocumentGroup,
      TagSystemGroup, TagFuture11Group, TagFuture12Group, TagFuture13Group,
      TagFuture14Group, TagFuture15Group, TagUnsupportedValue, TagDefault,
      TagUnknown, TagNotSettable, TagNoValue, TagDeleteAttr, TagAdminDefine,
      TagInteger, TagBoolean, TagEnum, TagString, TagDate, TagResolution,
      TagRange, TagBeginCollection, TagTextLang, TagNameLang, TagEndCollection,
      TagText, TagName, TagReservedString, TagKeyword, TagURI, TagURIScheme,
      TagCharset, TagLanguage, TagMimeType, TagMemberName, TagExtension]

/-- Witness for C7: the 65536-byte name `longName` exceeds the limit,
yet the message encodes without error. -/
theorem encode_swallows_too_long_name_witness :
    65535 < longName.length ∧
    (messageEncode
      { version := 0x0101, code := 2, requestID := 1,
        operation := [Attr.mk longName [(TagInteger, Value.integer 5)],
          Attr.mk [97] [(TagInteger, Value.integer 5)]] }).2 = none := by
  have hlen : longName.length = 65536 := by
    rw [longName, List.length_cons, List.length_replicate]
  exact ⟨by omega, encode_swallows_too_long_name longName (by omega)⟩

/-! ## Claim C2: decode error offsets -/

/-- **C2** (counterexample): on this stream the decode fails with
`Attribute without a group at 0xe`, yet the last tag byte was read at
offset 8 — the reported offset is that of the last read (the
attribute's value bytes), not of the last tag byte.  The stream is an
8-byte header followed by an Integer attribute with no group
delimiter. -/
theorem messageDecode_offset_counterexample :
    messageDecode [1, 1, 0, 2, 0, 0, 0, 1, 0x21, 0, 1, 97, 0, 4, 0, 0, 0, 5] =
      .err "Attribute without a group at 0xe" ⟨[], 14, 18, 8⟩ ∧
    (⟨[], 14, 18, 8⟩ : DecSt).tagOff = 8 ∧
    (⟨[], 14, 18, 8⟩ : DecSt).off = 14 ∧
    hexStr (⟨[], 14, 18, 8⟩ : DecSt).tagOff ≠ hexStr (⟨[], 14, 18, 8⟩ : DecSt).off := by
  refine ⟨by rfl, rfl, rfl, by decide⟩

/-- **C2** (amended): every decode failure's error string ends with
` at 0x<hex-offset>`, where the offset is `md.off` — the byte offset of
the start of the last read operation from the stream.  (This equals the
last tag byte's offset exactly when the error is raised directly after
a tag read.) -/
theorem messageDecode_err_suffix (input : List Nat) (e : String) (s : DecSt)
    (h : messageDecode input = .err e s) :
    ∃ inner, e = inner ++ (" at 0x" ++ hexStr s.off) := by
  unfold messageDecode at h
  cases hc : messageDecodeCore input with
  | ok m s0 => rw [hc] at h; cases h
  | crash e0 => rw [hc] at h; cases h
  | err e0 s0 =>
      rw [hc] at h
      cases h
      exact ⟨e0, by simp [String.append_assoc]⟩

/-- Witness for the amended C2 at the empty stream: the header read
fails with EOF at offset 0. -/
theorem messageDecode_err_suffix_witness :
    ∃ inner, "EOF at 0x0" = inner ++ (" at 0x" ++ hexStr (⟨[], 0, 0, 0⟩ : DecSt).off) :=
  messageDecode_err_suffix [] "EOF at 0x0" ⟨[], 0, 0, 0⟩ (by rfl)

/-! ## Claim C4: swapping groups under Equal and Similar -/

mutual
theorem valueSimilarB_refl (v : Value) : valueSimilarB v v = true := by
  cases v with
  | void => simp [valueSimilarB, valueEqB]
  | integer n => simp [valueSimilarB, valueEqB]
  | boolean b => simp [valueSimilarB, valueEqB]
  | str s => simp [valueSimilarB, valueEqB]
  | time t => simp [valueSimilarB, valueEqB]
  | resolution x y u => simp [valueSimilarB, valueEqB]
  | range l u => simp [valueSimilarB, valueEqB]
  | textWithLang l t => simp [valueSimilarB, valueEqB]
  | binary d => simp [valueSimilarB, valueEqB]
  | collection c =>
      simp [valueSimilarB, attrPairsSimilarB_refl (sortAttrsByName c)]
termination_by valueSize v
decreasing_by
  simp [valueSize, attrListSize_sortAttrsByName]

theorem tvListSimilarB_refl (l : List (Int × Value)) : tvListSimilarB l l = true := by
  cases l with
  | nil => simp [tvListSimilarB]
  | cons tv r =>
      obtain ⟨t, v⟩ := tv
      simp [tvListSimilarB, valueSimilarB_refl v, tvListSimilarB_refl r]
termination_by tvListSize l
decreasing_by
  all_goals (simp [tvListSize]; try omega)

theorem attrPairsSimilarB_refl (l : List Attr) : attrPairsSimilarB l l = true := by
  cases l with
  | nil => simp [attrPairsSimilarB]
  | cons a r =>
      cases a with
      | mk n vs =>
          simp [attrPairsSimilarB, tvListSimilarB_refl vs, attrPairsSimilarB_refl r]
termination_by attrListSize l
decreasing_by
  all_goals (simp [attrListSize_cons, attrSize, Attr.values]; try omega)
end

theorem attrsSimilarB_refl (c : List Attr) : attrsSimilarB c c = true := by
  simp [attrsSimilarB, attrPairsSimilarB_refl]

theorem groupSimilarB_refl (g : Group) : groupSimilarB g g = true := by
  simp [groupSimilarB, attrsSimilarB_refl]

theorem groupPairsSimilarB_refl (l : List Group) : groupPairsSimilarB l l = true := by
  induction l with
  | nil => simp [groupPairsSimilarB]
  | cons g r ih => simp [groupPairsSimilarB, groupSimilarB_refl, ih]

theorem groupsSimilarB_refl (l : List Group) : groupsSimilarB l l = true := by
  simp [groupsSimilarB, groupPairsSimilarB_refl]

theorem orderedInsertGroup_comm_ne (x y : Group) (h : x.tag ≠ y.tag) (l : List Group) :
    orderedInsertGroup x (orderedInsertGroup y l) =
      orderedInsertGroup y (orderedInsertGroup x l) := by
  induction l with
  | nil =>
      rcases Ne.lt_or_lt h with hlt | hlt
      · have h1 : x.tag ≤ y.tag := le_of_lt hlt
        have h2 : ¬ y.tag ≤ x.tag := by omega
        simp [orderedInsertGroup, h1, h2]
      · have h1 : y.tag ≤ x.tag := le_of_lt hlt
        have h2 : ¬ x.tag ≤ y.tag := by omega
        simp [orderedInsertGroup, h1, h2]
  | cons b t ih =>
      by_cases hxb : x.tag ≤ b.tag <;> by_cases hyb : y.tag ≤ b.tag
      · rcases Ne.lt_or_lt h with hlt | hlt
        · have h1 : x.tag ≤ y.tag := le_of_lt hlt
          have h2 : ¬ y.tag ≤ x.tag := by omega
          simp [orderedInsertGroup, hxb, hyb, h1, h2]
        · have h1 : y.tag ≤ x.tag := le_of_lt hlt
          have h2 : ¬ x.tag ≤ y.tag := by omega
          simp [orderedInsertGroup, hxb, hyb, h1, h2]
      · have h1 : x.tag ≤ y.tag := by omega
        have h2 : ¬ y.tag ≤ x.tag := by omega
        simp [orderedInsertGroup, hxb, hyb, h1, h2]
      · have h1 : y.tag ≤ x.tag := by omega
        have h2 : ¬ x.tag ≤ y.tag := by omega
        simp [orderedInsertGroup, hxb, hyb, h1, h2]
      · simp [orderedInsertGroup, hxb, hyb, ih]

theorem sortGroupsByTag_swap_ne (pre post : List Group) (x y : Group)
    (h : x.tag ≠ y.tag) :
    sortGroupsByTag (pre ++ x :: y :: post) =
      sortGroupsByTag (pre ++ y :: x :: post) := by
  induction pre with
  | nil => simp [sortGroupsByTag, orderedInsertGroup_comm_ne x y h]
  | cons p t ih => simp [sortGroupsByTag, ih]

theorem orderedInsertGroup_split_eq (x y : Group) (h : x.tag = y.tag) (l : List Group) :
    ∃ l1 l2,
      orderedInsertGroup x (orderedInsertGroup y l) = l1 ++ x :: y :: l2 ∧
      orderedInsertGroup y (orderedInsertGroup x l) = l1 ++ y :: x :: l2 := by
  have hxy : x.tag ≤ y.tag := by omega
  have hyx : y.tag ≤ x.tag := by omega
  induction l with
  | nil =>
      exact ⟨[], [], by simp [orderedInsertGroup, hxy],
        by simp [orderedInsertGroup, hyx]⟩
  | cons b t ih =>
      by_cases hxb : x.tag ≤ b.tag
      · have hyb : y.tag ≤ b.tag := by omega
        exact ⟨[], b :: t, by simp [orderedInsertGroup, hxb, hyb, hxy],
          by simp [orderedInsertGroup, hxb, hyb, hyx]⟩
      · have hyb : ¬ y.tag ≤ b.tag := by omega
        obtain ⟨l1, l2, e1, e2⟩ := ih
        exact ⟨b :: l1, l2, by simp [orderedInsertGroup, hxb, hyb, e1],
          by simp [orderedInsertGroup, hxb, hyb, e2]⟩

theorem orderedInsertGroup_preserves_shape (p x y : Group) (h : x.tag = y.tag)
    (A B : List Group) :
    ∃ A2 B2,
      orderedInsertGroup p (A ++ x :: y :: B) = A2 ++ x :: y :: B2 ∧
      orderedInsertGroup p (A ++ y :: x :: B) = A2 ++ y :: x :: B2 := by
  induction A with
  | nil =>
      by_cases hpx : p.tag ≤ x.tag
      · have hpy : p.tag ≤ y.tag := by omega
        exact ⟨[p], B, by simp [orderedInsertGroup, hpx],
          by simp [orderedInsertGroup, hpy]⟩
      · have hpy : ¬ p.tag ≤ y.tag := by omega
        exact ⟨[], orderedInsertGroup p B, by simp [orderedInsertGroup, hpx, hpy],
          by simp [orderedInsertGroup, hpx, hpy]⟩
  | cons a A ih =>
      by_cases hpa : p.tag ≤ a.tag
      · exact ⟨p :: a :: A, B, by simp [orderedInsertGroup, hpa],
          by simp [orderedInsertGroup, hpa]⟩
      · obtain ⟨A2, B2, e1, e2⟩ := ih
        exact ⟨a :: A2, B2, by simp [orderedInsertGroup, hpa, e1],
          by simp [orderedInsertGroup, hpa, e2]⟩

theorem sortGroupsByTag_swap_eq (pre post : List Group) (x y : Group)
    (h : x.tag = y.tag) :
    ∃ A B,
      sortGroupsByTag (pre ++ x :: y :: post) = A ++ x :: y :: B ∧
      sortGroupsByTag (pre ++ y :: x :: post) = A ++ y :: x :: B := by
  induction pre with
  | nil =>
      obtain ⟨l1, l2, e1, e2⟩ :=
        orderedInsertGroup_split_eq x y h (sortGroupsByTag post)
      exact ⟨l1, l2, by simp [sortGroupsByTag, e1], by simp [sortGroupsByTag, e2]⟩
  | cons p t ih =>
      obtain ⟨A, B, e1, e2⟩ := ih
      obtain ⟨A2, B2, f1, f2⟩ := orderedInsertGroup_preserves_shape p x y h A B
      exact ⟨A2, B2, by simp [sortGroupsByTag, e1, f1],
        by simp [sortGroupsByTag, e2, f2]⟩

theorem groupPairsSimilarB_swap_false (A B : List Group) (x y : Group)
    (hxy : groupSimilarB x y = false) :
    groupPairsSimilarB (A ++ x :: y :: B) (A ++ y :: x :: B) = false := by
  induction A with
  | nil => simp [groupPairsSimilarB, hxy]
  | cons a t ih => simp [groupPairsSimilarB, ih]

theorem groupPairsEqualB_swap_false (pre mid post : List Group) (g1 g2 : Group)
    (h : g1.tag ≠ g2.tag) :
    groupPairsEqualB (pre ++ g1 :: (mid ++ g2 :: post))
      (pre ++ g2 :: (mid ++ g1 :: post)) = false := by
  induction pre with
  | nil =>
      have he : groupEqualB g1 g2 = false := by simp [groupEqualB, h]
      simp [groupPairsEqualB, he]
  | cons a t ih => simp [groupPairsEqualB, ih]

/-- **C4** (amended): swapping two groups of distinct tags always breaks
`Equal`; it preserves `Similar` when the two groups are adjacent (the
original claim fails when another group sharing a tag with one of them
stands between the swapped positions); and swapping two adjacent groups
that share a tag breaks `Similar` exactly in the intended case that the
two groups are not similar to each other (identical repeated groups can
be swapped freely).  The comparison proceeds by length check, stable
sort of both sequences by tag, then pairwise equal tag and similar
attributes. -/
theorem groups_swap_properties :
    (∀ pre mid post : List Group, ∀ g1 g2 : Group, g1.tag ≠ g2.tag →
      groupsEqualB (pre ++ g1 :: (mid ++ g2 :: post))
        (pre ++ g2 :: (mid ++ g1 :: post)) = false) ∧
    (∀ pre post : List Group, ∀ g1 g2 : Group, g1.tag ≠ g2.tag →
      groupsSimilarB (pre ++ g1 :: g2 :: post) (pre ++ g2 :: g1 :: post) = true) ∧
    (∀ pre post : List Group, ∀ g1 g2 : Group, g1.tag = g2.tag →
      groupSimilarB g1 g2 = false →
      groupsSimilarB (pre ++ g1 :: g2 :: post) (pre ++ g2 :: g1 :: post) = false) := by
  refine ⟨?_, ?_, ?_⟩
  · intro pre mid post g1 g2 h
    simp [groupsEqualB, groupPairsEqualB_swap_false pre mid post g1 g2 h]
  · intro pre post g1 g2 h
    have hlen : (pre ++ g1 :: g2 :: post).length = (pre ++ g2 :: g1 :: post).length := by
      simp
    simp [groupsSimilarB, hlen, sortGroupsByTag_swap_ne pre post g1 g2 h,
      groupPairsSimilarB_refl]
  · intro pre post g1 g2 h hns
    obtain ⟨A, B, e1, e2⟩ := sortGroupsByTag_swap_eq pre post g1 g2 h
    simp [groupsSimilarB, e1, e2, groupPairsSimilarB_swap_false A B g1 g2 hns]

/-- **C4** (counterexample to the original claim): with `sampleA` and
`sampleB` sharing tag 1 and `sampleC` carrying tag 2, swapping the
distinct-tag groups at positions 0 and 2 of `[sampleA, sampleB,
sampleC]` does NOT preserve `Similar` (the stable sort orders the two
tag-1 groups differently on the two sides), and swapping the two
identical tag-1 groups of `[sampleA, sampleA]` does NOT break
`Similar`. -/
theorem groups_swap_counterexample :
    sampleA.tag ≠ sampleC.tag ∧
    groupsSimilarB [sampleA, sampleB, sampleC] [sampleC, sampleB, sampleA] = false ∧
    sampleA.tag = sampleA.tag ∧
    groupsSimilarB [sampleA, sampleA] [sampleA, sampleA] = true := by
  refine ⟨by decide, ?_, rfl, groupsSimilarB_refl [sampleA, sampleA]⟩
  simp [groupsSimilarB, sortGroupsByTag, orderedInsertGroup, sampleA, sampleB,
    sampleC, groupPairsSimilarB, groupSimilarB, attrsSimilarB, sortAttrsByName,
    orderedInsertAttr, attrPairsSimilarB, tvListSimilarB, valueSimilarB,
    valueEqB, nameLeB]

/-- Witness for C4 at concrete groups: distinct-tag swap `[sampleA,
sampleC]` breaks `Equal` and keeps `Similar`; the same-tag non-similar
pair `sampleA`, `sampleB` breaks `Similar` when swapped. -/
theorem groups_swap_properties_witness :
    groupsEqualB [sampleA, sampleC] [sampleC, sampleA] = false ∧
    groupsSimilarB [sampleA, sampleC] [sampleC, sampleA] = true ∧
    groupsSimilarB [sampleA, sampleB] [sampleB, sampleA] = false := by
  refine ⟨?_, ?_, ?_⟩
  · exact groups_swap_properties.1 [] [] [] sampleA sampleC (by decide)
  · exact groups_swap_properties.2.1 [] [] sampleA sampleC (by decide)
  · exact groups_swap_properties.2.2 [] [] sampleA sampleB (by decide)
      (by simp [groupSimilarB, sampleA, sampleB, attrsSimilarB, sortAttrsByName,
        orderedInsertAttr, attrPairsSimilarB, tvListSimilarB, valueSimilarB,
        valueEqB, nameLeB])

/-! ## Claim C10: Groups.Similar does not mutate its operands -/

theorem readG_append_lt (hh : GHeap) (x : List Group) (r : Nat)
    (hr : r < hh.length) :
    readG (hh ++ [x]) r = readG hh r := by
  induction hh generalizing r with
  | nil => simp at hr
  | cons a t ih =>
      cases r with
      | zero => rfl
      | succ n =>
          simp only [List.cons_append, readG]
          exact ih n (by simp at hr; omega)

theorem readG_append_len (hh : GHeap) (x : List Group) :
    readG (hh ++ [x]) hh.length = x := by
  induction hh with
  | nil => rfl
  | cons a t ih =>
      simp only [List.cons_append, List.length_cons, readG]
      exact ih

theorem readG_writeG_ne (hh : GHeap) (i j : Nat) (v : List Group) (h : i ≠ j) :
    readG (writeG hh i v) j = readG hh j := by
  induction hh generalizing i j with
  | nil => rfl
  | cons a t ih =>
      cases i with
      | zero =>
          cases j with
          | zero => exact absurd rfl h
          | succ m => rfl
      | succ n =>
          cases j with
          | zero => rfl
          | succ m =>
              simp only [writeG, readG]
              exact ih n m (by omega)

theorem readG_writeG_eq (hh : GHeap) (i : Nat) (v : List Group)
    (hi : i < hh.length) :
    readG (writeG hh i v) i = v := by
  induction hh generalizing i with
  | nil => simp at hi
  | cons a t ih =>
      cases i with
      | zero => rfl
      | succ n =>
          simp only [writeG, readG]
          exact ih n (by simp at hi; omega)

theorem length_writeG (hh : GHeap) (i : Nat) (v : List Group) :
    (writeG hh i v).length = hh.length := by
  induction hh generalizing i with
  | nil => rfl
  | cons a t ih =>
      cases i with
      | zero => rfl
      | succ n => simp [writeG, ih]

/-- **C10**: `Groups.Similar` never mutates its receiver or its
argument: on the heap model it stable-sorts freshly allocated clones,
so after the call both operand slices hold the same groups in the same
order as before, and the returned Boolean agrees with the pure
comparison. -/
theorem similarG_frame (h : GHeap) (r1 r2 : Nat)
    (hr1 : r1 < h.length) (hr2 : r2 < h.length) :
    readG (similarG h r1 r2).1 r1 = readG h r1 ∧
    readG (similarG h r1 r2).1 r2 = readG h r2 ∧
    (similarG h r1 r2).2 = groupsSimilarB (readG h r1) (readG h r2) := by
  by_cases hlen : (readG h r1).length ≠ (readG h r2).length
  · refine ⟨?_, ?_, ?_⟩ <;> simp [similarG, hlen, groupsSimilarB]
  · have hlen2 : (readG h r1).length = (readG h r2).length := not_ne_iff.mp hlen
    have hH1 : (h ++ [readG h r1]).length = h.length + 1 := by simp
    have hv2 : readG (h ++ [readG h r1]) r2 = readG h r2 :=
      readG_append_lt h _ r2 hr2
    have hH2 : (h ++ [readG h r1] ++ [readG (h ++ [readG h r1]) r2]).length
        = h.length + 2 := by simp
    -- the two fresh cells hold the clones
    have hc1 : readG (h ++ [readG h r1] ++ [readG (h ++ [readG h r1]) r2]) h.length
        = readG h r1 := by
      rw [readG_append_lt _ _ _ (by rw [hH1]; omega)]
      exact readG_append_len h _
    have hc2 : readG (h ++ [readG h r1] ++ [readG (h ++ [readG h r1]) r2])
        ((h ++ [readG h r1]).length) = readG h r2 := by
      rw [readG_append_len, hv2]
    -- unfold one call
    simp only [similarG, if_neg hlen, cloneG, sortG]
    rw [hc1, hH1]
    -- reads of the sorted cells
    have hs1 : readG (writeG (h ++ [readG h r1] ++ [readG (h ++ [readG h r1]) r2])
        h.length (sortGroupsByTag (readG h r1))) (h.length + 1) = readG h r2 := by
      rw [readG_writeG_ne _ _ _ _ (by omega)]
      rw [show h.length + 1 = (h ++ [readG h r1]).length from hH1.symm]
      rw [readG_append_len, hv2]
    rw [hs1]
    refine ⟨?_, ?_, ?_⟩
    · rw [readG_writeG_ne _ _ _ _ (by omega), readG_writeG_ne _ _ _ _ (by omega),
        readG_append_lt _ _ _ (by rw [hH1]; omega), readG_append_lt _ _ _ hr1]
    · rw [readG_writeG_ne _ _ _ _ (by omega), readG_writeG_ne _ _ _ _ (by omega),
        readG_append_lt _ _ _ (by rw [hH1]; omega), readG_append_lt _ _ _ hr2]
    · have e1 : readG (writeG (writeG (h ++ [readG h r1] ++
          [readG (h ++ [readG h r1]) r2]) h.length (sortGroupsByTag (readG h r1)))
          (h.length + 1) (sortGroupsByTag (readG h r2))) h.length
          = sortGroupsByTag (readG h r1) := by
        rw [readG_writeG_ne _ _ _ _ (by omega)]
        exact readG_writeG_eq _ _ _ (by rw [hH2]; omega)
      have e2 : readG (writeG (writeG (h ++ [readG h r1] ++
          [readG (h ++ [readG h r1]) r2]) h.length (sortGroupsByTag (readG h r1)))
          (h.length + 1) (sortGroupsByTag (readG h r2))) (h.length + 1)
          = sortGroupsByTag (readG h r2) := by
        exact readG_writeG_eq _ _ _ (by rw [length_writeG, hH2]; omega)
      rw [e1, e2]
      simp [groupsSimilarB, hlen2]

/-- Witness for C10 at the two-slot heap `[[sampleA], [sampleC]]`. -/
theorem similarG_frame_witness :
    readG (similarG [[sampleA], [sampleC]] 0 1).1 0 = readG [[sampleA], [sampleC]] 0 ∧
    readG (similarG [[sampleA], [sampleC]] 0 1).1 1 = readG [[sampleA], [sampleC]] 1 ∧
    (similarG [[sampleA], [sampleC]] 0 1).2 =
      groupsSimilarB (readG [[sampleA], [sampleC]] 0) (readG [[sampleA], [sampleC]] 1) :=
  similarG_frame [[sampleA], [sampleC]] 0 1 (by decide) (by decide)

/-! ## Claim C1: round-trip -/

mutual
theorem valueEqB_refl (v : Value) : valueEqB v v = true := by
  cases v with
  | void => simp [valueEqB]
  | integer n => simp [valueEqB]
  | boolean b => simp [valueEqB]
  | str s => simp [valueEqB]
  | time t => simp [valueEqB]
  | resolution x y u => simp [valueEqB]
  | range l u => simp [valueEqB]
  | textWithLang l t => simp [valueEqB]
  | binary d => simp [valueEqB]
  | collection c => simp [valueEqB, attrListEqB_refl c]
termination_by valueSize v
decreasing_by
  all_goals (simp [valueSize]; try omega)

theorem tvListEqB_refl (l : List (Int × Value)) : tvListEqB l l = true := by
  cases l with
  | nil => simp [tvListEqB]
  | cons tv r =>
      obtain ⟨t, v⟩ := tv
      simp [tvListEqB, valueEqB_refl v, tvListEqB_refl r]
termination_by tvListSize l
decreasing_by
  all_goals (simp [tvListSize]; try omega)

theorem attrListEqB_refl (l : List Attr) : attrListEqB l l = true := by
  cases l with
  | nil => simp [attrListEqB]
  | cons a r =>
      cases a with
      | mk n vs =>
          simp [attrListEqB, tvListEqB_refl vs, attrListEqB_refl r]
termination_by attrListSize l
decreasing_by
  all_goals (simp [attrListSize_cons, attrSize, Attr.values]; try omega)
end

theorem msgGroupPairsEqB_refl (l : List (Int × List Attr)) :
    msgGroupPairsEqB l l = true := by
  induction l with
  | nil => simp [msgGroupPairsEqB]
  | cons p r ih =>
      obtain ⟨t, a⟩ := p
      simp [msgGroupPairsEqB, attrListEqB_refl a, ih]

theorem msgEqB_refl (m : Msg) : msgEqB m m = true := by
  simp [msgEqB, msgGroupPairsEqB_refl]

theorem be32_bytes32 (x : Nat) (h : x < 4294967296) : be32 (bytes32 x) = x := by
  simp [be32, bytes32, List.getD_cons_zero, List.getD_cons_succ]
  omega

theorem toInt32_roundtrip (n : Int) (h1 : -2147483648 ≤ n) (h2 : n < 2147483648) :
    toInt32 ((n % 4294967296).toNat) = n := by
  unfold toInt32
  split <;> omega

/-- Per-kind round-trip: under the amended well-formedness, encoding a
non-collection value yields a payload that `unpack` turns back into the
same tagged value, and `encodeValue` writes exactly the 16-bit length
plus that payload with no error. -/
theorem encodeValue_ok (t : Int) (v : Value) (ht : tagType t = v.type)
    (hv : wfPayload v = true) (hnc : v.type ≠ Ty.collection) :
    ∃ data, valueEncode v = .ok data ∧ data.length ≤ 65535 ∧
      encodeValue t v = (bytes16 data.length ++ data, none) ∧
      unpack t data = .ok (t, v) := by
  cases v with
  | void =>
      refine ⟨[], rfl, by simp, ?_, ?_⟩
      · simp [encodeValue, ht, Value.type, valueEncode]
      · simp [unpack, ht, Value.type]
  | integer n =>
      simp only [wfPayload, Bool.and_eq_true, decide_eq_true_eq] at hv
      refine ⟨bytes32 ((n % 4294967296).toNat), rfl, by simp [bytes32], ?_, ?_⟩
      · simp [encodeValue, ht, Value.type, valueEncode, bytes32]
      · simp [unpack, ht, Value.type, unpackWith, integerDecode, bytes32]
        rw [show [(n % 4294967296).toNat / 16777216 % 256,
              (n % 4294967296).toNat / 65536 % 256,
              (n % 4294967296).toNat / 256 % 256,
              (n % 4294967296).toNat % 256] = bytes32 ((n % 4294967296).toNat)
            from rfl]
        rw [be32_bytes32 _ (by omega), toInt32_roundtrip n hv.1 hv.2]
  | boolean b =>
      refine ⟨[if b then 1 else 0], rfl, by simp, ?_, ?_⟩
      · cases b <;> simp [encodeValue, ht, Value.type, valueEncode]
      · cases b <;>
          simp [unpack, ht, Value.type, unpackWith, booleanDecode, List.getD_cons_zero]
  | str s =>
      simp only [wfPayload, decide_eq_true_eq] at hv
      refine ⟨s, rfl, by omega, ?_, ?_⟩
      · simp [encodeValue, ht, Value.type, valueEncode]
        omega
      · simp [unpack, ht, Value.type, unpackWith, stringDecode]
  | time tr =>
      obtain ⟨yr, mo, da, ho, mi, se, ns, zo⟩ := tr
      simp only [wfPayload, Bool.and_eq_true, decide_eq_true_eq] at hv
      obtain ⟨⟨⟨⟨⟨⟨⟨⟨⟨⟨⟨⟨h1, h2⟩, h3⟩, h4⟩, h5⟩, h6⟩, h7⟩, h8⟩, h9⟩, h10⟩, h11⟩, h12⟩, h13⟩ := hv
      refine ⟨_, rfl, by simp [valueEncode], ?_, ?_⟩
      · simp [encodeValue, ht, Value.type, valueEncode]
      · simp only [unpack, ht, Value.type, unpackWith, timeDecode]
        by_cases hz : zo < 0
        · simp [hz, timeDate, be16, List.getD_cons_zero, List.getD_cons_succ,
            TimeRec.mk.injEq, -Int.natCast_natAbs]
          omega
        · simp [hz, timeDate, be16, List.getD_cons_zero, List.getD_cons_succ,
            TimeRec.mk.injEq, -Int.natCast_natAbs]
          omega
  | resolution x y u =>
      simp only [wfPayload, Bool.and_eq_true, decide_eq_true_eq] at hv
      obtain ⟨⟨⟨⟨hx0, hx1⟩, hy0⟩, hy1⟩, hu⟩ := hv
      refine ⟨_, rfl, by simp [valueEncode, bytes32], ?_, ?_⟩
      · simp [encodeValue, ht, Value.type, valueEncode, bytes32]
      · simp only [unpack, ht, Value.type, unpackWith, resolutionDecode, valueEncode]
        simp [bytes32, be32, List.getD_cons_zero, List.getD_cons_succ,
          Value.resolution.injEq]
        refine ⟨?_, ?_, ?_⟩ <;> omega
  | range lo up =>
      simp only [wfPayload, Bool.and_eq_true, decide_eq_true_eq] at hv
      obtain ⟨⟨⟨hl0, hl1⟩, hu0⟩, hu1⟩ := hv
      refine ⟨_, rfl, by simp [valueEncode, bytes32], ?_, ?_⟩
      · simp [encodeValue, ht, Value.type, valueEncode, bytes32]
      · simp only [unpack, ht, Value.type, unpackWith, rangeDecode, valueEncode]
        simp [bytes32, be32, List.getD_cons_zero, List.getD_cons_succ,
          Value.range.injEq]
        refine ⟨?_, ?_⟩ <;> omega
  | textWithLang lang text =>
      simp only [wfPayload, Bool.and_eq_true, decide_eq_true_eq] at hv
      obtain ⟨⟨hl, htx⟩, htot⟩ := hv
      have henc : valueEncode (.textWithLang lang text) =
          .ok (bytes16 lang.length ++ lang ++ bytes16 text.length ++ text) := by
        simp only [valueEncode]
        rw [if_neg (by omega : ¬ lang.length > 65535),
          if_neg (by omega : ¬ text.length > 65535)]
      refine ⟨bytes16 lang.length ++ lang ++ bytes16 text.length ++ text, henc,
        by simp [bytes16]; omega, ?_, ?_⟩
      · simp [encodeValue, ht, Value.type, henc, bytes16]
        omega
      · simp only [unpack, ht, Value.type, unpackWith, textWithLangDecode]
        have e1 : (bytes16 lang.length ++ lang ++ bytes16 text.length ++ text).length =
            4 + lang.length + text.length := by
          simp [bytes16]
          omega
        have e2 : be16 (bytes16 lang.length ++ lang ++ bytes16 text.length ++ text) =
            lang.length := by
          simp [bytes16, be16, List.getD_cons_zero, List.getD_cons_succ]
          omega
        have e3 : (bytes16 lang.length ++ lang ++ bytes16 text.length ++ text).drop 2 =
            lang ++ bytes16 text.length ++ text := by
          simp [bytes16]
        rw [e1, e2, e3]
        have e4 : (lang ++ bytes16 text.length ++ text).length =
            2 + lang.length + text.length := by
          simp [bytes16]
          omega
        have e5 : (lang ++ bytes16 text.length ++ text).take lang.length = lang := by
          rw [List.append_assoc, List.take_left]
        have e6 : (lang ++ bytes16 text.length ++ text).drop lang.length =
            bytes16 text.length ++ text := by
          rw [List.append_assoc, List.drop_left]
        rw [e4, e5, e6]
        have e7 : (bytes16 text.length ++ text).length = 2 + text.length := by
          simp [bytes16]
          omega
        have e8 : be16 (bytes16 text.length ++ text) = text.length := by
          simp [bytes16, be16, List.getD_cons_zero, List.getD_cons_succ]
          omega
        have e9 : (bytes16 text.length ++ text).drop 2 = text := by
          simp [bytes16]
        rw [e7, e8, e9]
        rw [if_neg (by omega : ¬ 4 + lang.length + text.length < 2),
          if_neg (by omega : ¬ 2 + lang.length + text.length < lang.length),
          if_neg (by omega : ¬ 2 + text.length < 2)]
        simp [List.take_length, List.drop_length]
  | binary d =>
      simp only [wfPayload, decide_eq_true_eq] at hv
      refine ⟨d, rfl, by omega, ?_, ?_⟩
      · simp [encodeValue, ht, Value.type, valueEncode]
        omega
      · simp [unpack, ht, Value.type, unpackWith, binaryDecode]
  | collection c =>
      exact absurd (by simp [Value.type]) hnc

theorem tagType_collection_eq {t : Int} (h : tagType t = Ty.collection) :
    t = TagBeginCollection := by
  by_contra hne
  unfold tagType at h
  repeat' split at h
  all_goals first
    | exact absurd h (by decide)
    | exact hne (by assumption)

/-- The facts about a well-formed value tag used by the decoder
correspondence. -/
theorem wfValueTag_props {t : Int} (h : wfValueTag t = true) :
    tagIsDelimiter t = false ∧ t ≠ TagZero ∧ t ≠ TagEnd ∧
    groupTagToIdx t = none ∧ t ≠ TagMemberName ∧ t ≠ TagEndCollection ∧
    t ≠ TagExtension ∧ ((tagByte t : Nat) : Int) = t := by
  simp only [wfValueTag, Bool.and_eq_true, decide_eq_true_eq] at h
  obtain ⟨⟨⟨⟨hlo, hhi⟩, hm⟩, he⟩, hx⟩ := h
  refine ⟨?_, ?_, ?_, ?_, hm, he, hx, ?_⟩
  · simp only [tagIsDelimiter, Bool.and_eq_false_iff]
    right
    simp only [decide_eq_false_iff_not]
    omega
  · show t ≠ (0x00 : Int); omega
  · show t ≠ (0x03 : Int); omega
  · exact groupTagToIdx_none t (by omega)
  · unfold tagByte; omega

/-! ## Encoder success under well-formedness -/

theorem pair_eta_none {α β : Type} {p : α × Option β} (h : p.2 = none) :
    p = (p.1, none) := by
  obtain ⟨a, b⟩ := p
  cases h
  rfl

mutual
theorem encodeValue_none (t : Int) (v : Value) (ht : tagType t = v.type)
    (hv : wfPayload v = true) : (encodeValue t v).2 = none := by
  cases v with
  | collection c =>
      simp only [wfPayload] at hv
      have hcb := encodeCollection_none c hv
      simp [encodeValue, ht, Value.type, valueEncode, hcb]
  | void =>
      obtain ⟨d, _, _, henc, _⟩ := encodeValue_ok t .void ht hv (by simp [Value.type])
      simp [henc]
  | integer n =>
      obtain ⟨d, _, _, henc, _⟩ :=
        encodeValue_ok t (.integer n) ht hv (by simp [Value.type])
      simp [henc]
  | boolean b =>
      obtain ⟨d, _, _, henc, _⟩ :=
        encodeValue_ok t (.boolean b) ht hv (by simp [Value.type])
      simp [henc]
  | str s =>
      obtain ⟨d, _, _, henc, _⟩ :=
        encodeValue_ok t (.str s) ht hv (by simp [Value.type])
      simp [henc]
  | time tr =>
      obtain ⟨d, _, _, henc, _⟩ :=
        encodeValue_ok t (.time tr) ht hv (by simp [Value.type])
      simp [henc]
  | resolution x y u =>
      obtain ⟨d, _, _, henc, _⟩ :=
        encodeValue_ok t (.resolution x y u) ht hv (by simp [Value.type])
      simp [henc]
  | range lo up =>
      obtain ⟨d, _, _, henc, _⟩ :=
        encodeValue_ok t (.range lo up) ht hv (by simp [Value.type])
      simp [henc]
  | textWithLang lang text =>
      obtain ⟨d, _, _, henc, _⟩ :=
        encodeValue_ok t (.textWithLang lang text) ht hv (by simp [Value.type])
      simp [henc]
  | binary d0 =>
      obtain ⟨d, _, _, henc, _⟩ :=
        encodeValue_ok t (.binary d0) ht hv (by simp [Value.type])
      simp [henc]
termination_by valueSize v
decreasing_by
  all_goals subst_vars
  all_goals (simp [valueSize, tvListSize, attrListSize_cons, attrSize, Attr.values]; try omega)

theorem encodeValuesLoop_none (nm : List Nat) (vs : List (Int × Value))
    (hn : nm.length ≤ 65535) (hws : wfTVList vs = true) :
    (encodeValuesLoop nm vs).2 = none := by
  revert hws
  match hvs : vs with
  | [] => intro hws; simp [encodeValuesLoop]
  | (t, v) :: rest =>
      intro hws
      simp only [wfTVList, Bool.and_eq_true, decide_eq_true_eq] at hws
      obtain ⟨⟨⟨htag, hty⟩, hpay⟩, hrest⟩ := hws
      obtain ⟨vb, hvb⟩ : ∃ b, encodeValue t v = (b, none) :=
        ⟨_, pair_eta_none (encodeValue_none t v hty hpay)⟩
      obtain ⟨rb, hrb⟩ : ∃ b, encodeValuesLoop [] rest = (b, none) :=
        ⟨_, pair_eta_none (encodeValuesLoop_none [] rest (by simp) hrest)⟩
      have hnm : encodeName nm = (bytes16 nm.length ++ nm, none) := by
        simp only [encodeName]
        rw [if_neg (by omega : ¬ nm.length > 65535)]
      simp only [encodeValuesLoop, hnm, hvb, hrb]
termination_by tvListSize vs
decreasing_by
  all_goals subst_vars
  all_goals (simp [valueSize, tvListSize, attrListSize_cons, attrSize, Attr.values]; try omega)

theorem encodeCollection_none (c : List Attr) (hc : wfAttrList c = true) :
    (encodeCollection c).2 = none := by
  cases c with
  | nil =>
      obtain ⟨d, hd, _, henc, _⟩ :=
        encodeValue_ok TagEndCollection .void (by rfl) (by simp [wfPayload])
          (by simp [Value.type])
      have hdnil : d = [] := by
        simp only [valueEncode] at hd
        injection hd with h
        exact h.symm
      subst hdnil
      simp only [encodeCollection, encodeAttr, Attr.values, Attr.name,
        List.isEmpty_cons, Bool.false_eq_true, if_false, encodeValuesLoop,
        encodeName, List.length_nil, henc]
      simp
  | cons a rest =>
      cases a with
      | mk nm vs =>
          simp only [wfAttrList, Bool.and_eq_true, decide_eq_true_eq,
            Bool.not_eq_true'] at hc
          obtain ⟨⟨⟨⟨hne, hlen⟩, hvne⟩, hwv⟩, hrest⟩ := hc
          obtain ⟨d, hd, hdlen, henc, _⟩ :=
            encodeValue_ok TagMemberName (.str nm) (by rfl)
              (by simp [wfPayload]; omega) (by simp [Value.type])
          have hdnm : d = nm := by
            simp only [valueEncode] at hd
            injection hd with h
            exact h.symm
          rw [hdnm] at henc
          obtain ⟨b2, hb2⟩ : ∃ b, encodeValuesLoop [] vs = (b, none) :=
            ⟨_, pair_eta_none (encodeValuesLoop_none [] vs (by simp) hwv)⟩
          obtain ⟨b3, hb3⟩ : ∃ b, encodeCollection rest = (b, none) :=
            ⟨_, pair_eta_none (encodeCollection_none rest hrest)⟩
          have hnmne : nm.isEmpty = false := by
            cases nm with
            | nil => exact absurd rfl hne
            | cons x xs => rfl
          simp only [encodeCollection, Attr.name, Attr.values, hnmne,
            Bool.false_eq_true, if_false, encodeAttr, List.isEmpty_cons,
            encodeValuesLoop, encodeName, List.length_nil, henc, hb2, hb3, hvne]
          simp
termination_by attrListSize c
decreasing_by
  all_goals subst_vars
  all_goals (simp [valueSize, tvListSize, attrListSize_cons, attrSize, Attr.values]; try omega)
end


/-! ## Decoder correspondence (claim C1) -/

theorem getG_setG (m : Msg) (gi : GIdx) (l : List Attr) :
    (m.setG gi l).getG gi = l := by
  cases gi <;> rfl

theorem appendValueLast_concat (l : List Attr) (a : Attr) (tv : Int × Value) :
    appendValueLast (l ++ [a]) tv = l ++ [Attr.mk a.name (a.values ++ [tv])] := by
  induction l with
  | nil => cases a; rfl
  | cons x xs ih =>
      obtain ⟨y, ys, hys⟩ : ∃ y ys, xs ++ [a] = y :: ys := by
        cases xs with
        | nil => exact ⟨a, [], rfl⟩
        | cons z zs => exact ⟨z, zs ++ [a], rfl⟩
      show appendValueLast (x :: (xs ++ [a])) tv = _
      rw [hys, show appendValueLast (x :: y :: ys) tv =
        x :: appendValueLast (y :: ys) tv from rfl, ← hys, ih]
      rfl

theorem encodeName_le (nm : List Nat) (h : nm.length ≤ 65535) :
    encodeName nm = (bytes16 nm.length ++ nm, none) := by
  simp only [encodeName]
  rw [if_neg (by omega : ¬ nm.length > 65535)]

theorem encodeValuesLoop_cons_shape (nm : List Nat) (t : Int) (v : Value)
    (r : List (Int × Value)) (hn : nm.length ≤ 65535)
    (hvb : (encodeValue t v).2 = none) :
    (encodeValuesLoop nm ((t, v) :: r)).1 =
      tagByte t :: (bytes16 nm.length ++ (nm ++
        ((encodeValue t v).1 ++ (encodeValuesLoop [] r).1))) := by
  obtain ⟨vb, hvb'⟩ : ∃ b, encodeValue t v = (b, none) := ⟨_, pair_eta_none hvb⟩
  simp [encodeValuesLoop, encodeName_le nm hn, hvb']

theorem encodeValue_collection_shape (c : List Attr) :
    encodeValue TagBeginCollection (.collection c) =
      ([0, 0] ++ (encodeCollection c).1, (encodeCollection c).2) := by
  have h1 : tagType TagBeginCollection = Ty.collection := by decide
  simp [encodeValue, h1, Value.type, valueEncode, bytes16]

theorem encodeCollection_nil_shape :
    encodeCollection ([] : List Attr) = ([0x37, 0, 0, 0, 0], none) := by
  have h1 : tagType (55 : Int) = Ty.void := by decide
  have htb : tagByte (55 : Int) = 55 := by decide
  simp [encodeCollection, encodeAttr, encodeValuesLoop, encodeValue, h1, htb,
    encodeName, valueEncode, bytes16, Attr.name, Attr.values, Value.type,
    TagEndCollection]

theorem encodeCollection_cons_shape (nm : List Nat) (vs : List (Int × Value))
    (rest : List Attr) (hnm : nm ≠ []) (hlen : nm.length < 65536) (hvs : vs ≠ [])
    (hwv : wfTVList vs = true) (hrest : wfAttrList rest = true) :
    encodeCollection (Attr.mk nm vs :: rest) =
      (0x4a :: ([0, 0] ++ (bytes16 nm.length ++ (nm ++
        ((encodeValuesLoop [] vs).1 ++ (encodeCollection rest).1)))),
       none) := by
  obtain ⟨b2, hb2⟩ : ∃ b, encodeValuesLoop [] vs = (b, none) :=
    ⟨_, pair_eta_none (encodeValuesLoop_none [] vs (by simp) hwv)⟩
  obtain ⟨b3, hb3⟩ : ∃ b, encodeCollection rest = (b, none) :=
    ⟨_, pair_eta_none (encodeCollection_none rest hrest)⟩
  have hnmI : nm.isEmpty = false := by
    cases nm with
    | nil => exact absurd rfl hnm
    | cons _ _ => rfl
  have hvsI : vs.isEmpty = false := by
    cases vs with
    | nil => exact absurd rfl hvs
    | cons _ _ => rfl
  have hstr : tagType (74 : Int) = Ty.string := by decide
  have htb : tagByte (74 : Int) = 74 := by decide
  have hlen' : ¬ nm.length > 65535 := by omega
  simp [encodeCollection, Attr.name, Attr.values, hnmI, hvsI, encodeAttr,
    encodeValuesLoop, encodeName, encodeValue, hstr, htb, Value.type,
    valueEncode, hlen', hb2, hb3, bytes16, TagMemberName]

theorem valueType_collection_inv (v : Value) (h : v.type = Ty.collection) :
    ∃ c, v = .collection c := by
  cases v <;> simp_all [Value.type]

/-- `decodeAttribute` on a stream carrying an empty name. -/
theorem decodeAttribute_noname (tag : Int) (vb rest : List Nat) (s : DecSt)
    (tv : Int × Value) (hvb : vb.length < 65536) (htag : tag ≠ TagExtension)
    (h : s.input = [0, 0] ++ (bytes16 vb.length ++ (vb ++ rest)))
    (hu : unpack tag vb = .ok tv) :
    decodeAttribute tag s =
      .ok ([], tv) ⟨rest, s.cnt + 4, s.cnt + 4 + vb.length, s.tagOff⟩ := by
  have h0 := decodeAttribute_ok tag [] vb rest s tv (by decide) hvb htag
    (by simpa [bytes16] using h) hu
  simpa using h0

/-- `decodeAttribute` on a stream carrying an empty name and an empty
value. -/
theorem decodeAttribute_void (tag : Int) (rest : List Nat) (s : DecSt)
    (tv : Int × Value) (htag : tag ≠ TagExtension)
    (h : s.input = [0, 0] ++ ([0, 0] ++ rest))
    (hu : unpack tag [] = .ok tv) :
    decodeAttribute tag s = .ok ([], tv) ⟨rest, s.cnt + 4, s.cnt + 4, s.tagOff⟩ := by
  have h0 := decodeAttribute_noname tag [] rest s tv (by decide) htag
    (by simpa [bytes16] using h) hu
  simpa using h0

/-! ## Decoder correspondence for collections -/

mutual

/-- Decoding an encoded well-formed collection body appends exactly its
members to the accumulated collection and stops at the terminator. -/
theorem dec_coll (c : List Attr) (hwf : wfAttrList c = true) :
    ∀ fuel acc (s : DecSt) rest,
      s.input = (encodeCollection c).1 ++ rest →
      s.input.length + 1 ≤ fuel →
      (match acc.getLast? with
       | some a => a.values.isEmpty
       | none => false) = false →
      ∃ o2 c2 t2,
        decodeCollectionLoop fuel acc s = .ok (acc ++ c) ⟨rest, o2, c2, t2⟩ := by
  revert hwf
  match hc : c with
  | [] =>
      intro _ fuel acc s rest hin hfuel hacc
      rw [encodeCollection_nil_shape] at hin
      obtain ⟨f, rfl⟩ : ∃ f, fuel = f + 1 := ⟨fuel - 1, by omega⟩
      have htag : decodeTag s = (.ok (0x37 : Int),
          ⟨0 :: 0 :: 0 :: 0 :: rest, s.cnt, s.cnt + 1, s.cnt⟩) :=
        decodeTag_cons 0x37 _ s (by simpa using hin)
      have hattr : decodeAttribute (0x37 : Int)
          ⟨0 :: 0 :: 0 :: 0 :: rest, s.cnt, s.cnt + 1, s.cnt⟩ =
          .ok ([], ((0x37 : Int), Value.void))
            ⟨rest, s.cnt + 5, s.cnt + 5, s.cnt⟩ := by
        have h0 := decodeAttribute_void (0x37 : Int) rest
          (⟨0 :: 0 :: 0 :: 0 :: rest, s.cnt, s.cnt + 1, s.cnt⟩ : DecSt)
          ((0x37 : Int), Value.void) (by decide) rfl (by rfl)
        have e : s.cnt + 1 + 4 = s.cnt + 5 := by omega
        simpa [e] using h0
      refine ⟨s.cnt + 5, s.cnt + 5, s.cnt, ?_⟩
      cases hl : acc.getLast? with
      | none =>
          simp [decodeCollectionLoop, htag, hattr, hl, tagIsDelimiter,
            TagMemberName, TagEndCollection]
      | some a =>
          have hae : a.values.isEmpty = false := by simpa [hl] using hacc
          simp [decodeCollectionLoop, htag, hattr, hl, hae, tagIsDelimiter,
            TagMemberName, TagEndCollection]
  | Attr.mk nm vs :: crest =>
      intro hwf fuel acc s rest hin hfuel hacc
      simp only [wfAttrList, Bool.and_eq_true, decide_eq_true_eq,
        Bool.not_eq_true'] at hwf
      obtain ⟨⟨⟨⟨hne, hlen⟩, hvne⟩, hwv⟩, hrest⟩ := hwf
      have hvsne : vs ≠ [] := by
        intro h
        rw [h] at hvne
        simp at hvne
      rw [encodeCollection_cons_shape nm vs crest hne hlen hvsne hwv hrest] at hin
      obtain ⟨f, rfl⟩ : ∃ f, fuel = f + 1 := ⟨fuel - 1, by omega⟩
      have htag : decodeTag s = (.ok (0x4a : Int),
          ⟨0 :: 0 :: (bytes16 nm.length ++ (nm ++
            ((encodeValuesLoop [] vs).1 ++ ((encodeCollection crest).1 ++ rest)))),
           s.cnt, s.cnt + 1, s.cnt⟩) := by
        apply decodeTag_cons 0x4a _ s
        rw [hin]
        simp [List.append_assoc]
      have hattr : decodeAttribute (0x4a : Int)
          ⟨0 :: 0 :: (bytes16 nm.length ++ (nm ++
            ((encodeValuesLoop [] vs).1 ++ ((encodeCollection crest).1 ++ rest)))),
           s.cnt, s.cnt + 1, s.cnt⟩ =
          .ok ([], ((0x4a : Int), Value.str nm))
            ⟨(encodeValuesLoop [] vs).1 ++ ((encodeCollection crest).1 ++ rest),
             s.cnt + 5, s.cnt + 5 + nm.length, s.cnt⟩ := by
        have h0 := decodeAttribute_noname (0x4a : Int) nm
          ((encodeValuesLoop [] vs).1 ++ ((encodeCollection crest).1 ++ rest))
          (⟨0 :: 0 :: (bytes16 nm.length ++ (nm ++
            ((encodeValuesLoop [] vs).1 ++ ((encodeCollection crest).1 ++ rest)))),
            s.cnt, s.cnt + 1, s.cnt⟩ : DecSt)
          ((0x4a : Int), Value.str nm) hlen (by decide) rfl (by rfl)
        have e : s.cnt + 1 + 4 = s.cnt + 5 := by omega
        simpa [e] using h0
      have hnmI : nm.isEmpty = false := by
        cases nm with
        | nil => exact absurd rfl hne
        | cons _ _ => rfl
      have hlen1 : s.input.length =
          5 + nm.length + ((encodeValuesLoop [] vs).1.length +
            ((encodeCollection crest).1.length + rest.length)) := by
        rw [hin]
        simp [bytes16]
        omega
      obtain ⟨fuel2, o2, c2, t2, hvals, hb2, hb3⟩ :=
        dec_vals vs hwv f acc nm []
          (⟨(encodeValuesLoop [] vs).1 ++ ((encodeCollection crest).1 ++ rest),
            s.cnt + 5, s.cnt + 5 + nm.length, s.cnt⟩ : DecSt)
          ((encodeCollection crest).1 ++ rest) rfl (by simp; omega)
      obtain ⟨o4, c4, t4, hrest2⟩ :=
        dec_coll crest hrest fuel2 (acc ++ [Attr.mk nm vs])
          (⟨(encodeCollection crest).1 ++ rest, o2, c2, t2⟩ : DecSt) rest rfl
          (by simpa using hb2)
          (by rw [List.getLast?_concat]
              simpa [Attr.values] using hvne)
      refine ⟨o4, c4, t4, ?_⟩
      cases hl : acc.getLast? with
      | none =>
          simp [decodeCollectionLoop, htag, hattr, hl, tagIsDelimiter,
            TagMemberName, TagEndCollection, hnmI, hvals, hrest2,
            List.append_assoc]
      | some a =>
          have hae : a.values.isEmpty = false := by simpa [hl] using hacc
          simp [decodeCollectionLoop, htag, hattr, hl, hae, tagIsDelimiter,
            TagMemberName, TagEndCollection, hnmI, hvals, hrest2,
            List.append_assoc]
termination_by attrListSize c
decreasing_by
  all_goals subst_vars
  all_goals (simp [valueSize, tvListSize, attrListSize_cons, attrSize,
    Attr.values]; try omega)

/-- Decoding the encoded well-formed values of a collection member
appends them to the member under construction. -/
theorem dec_vals (vs : List (Int × Value)) (hwf : wfTVList vs = true) :
    ∀ fuel acc nm done (s : DecSt) rest,
      s.input = (encodeValuesLoop [] vs).1 ++ rest →
      s.input.length + 1 ≤ fuel →
      ∃ fuel2 o2 c2 t2,
        decodeCollectionLoop fuel (acc ++ [Attr.mk nm done]) s =
          decodeCollectionLoop fuel2 (acc ++ [Attr.mk nm (done ++ vs)])
            ⟨rest, o2, c2, t2⟩ ∧
        rest.length + 1 ≤ fuel2 ∧ fuel2 ≤ fuel := by
  revert hwf
  match hvs : vs with
  | [] =>
      intro _ fuel acc nm done s rest hin hfuel
      obtain ⟨si, so, sc, st⟩ := s
      simp only [encodeValuesLoop, List.nil_append] at hin
      simp only at hin hfuel
      refine ⟨fuel, so, sc, st, ?_, ?_, Nat.le_refl fuel⟩
      · rw [List.append_nil, hin]
      · rw [hin] at hfuel
        exact hfuel
  | (t, v) :: r =>
      intro hwf fuel acc nm done s rest hin hfuel
      simp only [wfTVList, Bool.and_eq_true, decide_eq_true_eq] at hwf
      obtain ⟨⟨⟨htw, hty⟩, hpay⟩, hr⟩ := hwf
      obtain ⟨hdl, hz, he, hgi, hm, hec, hx, hcast⟩ := wfValueTag_props htw
      obtain ⟨f, rfl⟩ : ∃ f, fuel = f + 1 := ⟨fuel - 1, by omega⟩
      have hne2 : (acc ++ [Attr.mk nm done]).isEmpty = false := by simp
      by_cases hvc : v.type = Ty.collection
      · -- nested collection value
        obtain ⟨cc, rfl⟩ := valueType_collection_inv v hvc
        have h34 : t = TagBeginCollection := tagType_collection_eq (by rw [hty]; rfl)
        subst h34
        have hwfc : wfAttrList cc = true := by simpa [wfPayload] using hpay
        obtain ⟨cb, hcb⟩ : ∃ b, encodeCollection cc = (b, none) :=
          ⟨_, pair_eta_none (encodeCollection_none cc hwfc)⟩
        have hshape : s.input = 0x34 :: 0 :: 0 :: 0 :: 0 ::
            (cb ++ ((encodeValuesLoop [] r).1 ++ rest)) := by
          rw [hin, encodeValuesLoop_cons_shape [] TagBeginCollection (.collection cc) r
            (by simp) (by rw [encodeValue_collection_shape, hcb]),
            encodeValue_collection_shape, hcb]
          have htb : tagByte (52 : Int) = 52 := by decide
          simp [htb, bytes16, TagBeginCollection, List.append_assoc]
        have htag : decodeTag s = (.ok (0x34 : Int),
            ⟨0 :: 0 :: 0 :: 0 :: (cb ++ ((encodeValuesLoop [] r).1 ++ rest)),
             s.cnt, s.cnt + 1, s.cnt⟩) :=
          decodeTag_cons 0x34 _ s hshape
        have hattr : decodeAttribute (0x34 : Int)
            ⟨0 :: 0 :: 0 :: 0 :: (cb ++ ((encodeValuesLoop [] r).1 ++ rest)),
             s.cnt, s.cnt + 1, s.cnt⟩ =
            .ok ([], ((0x34 : Int), Value.void))
              ⟨cb ++ ((encodeValuesLoop [] r).1 ++ rest),
               s.cnt + 5, s.cnt + 5, s.cnt⟩ := by
          have h0 := decodeAttribute_void (0x34 : Int)
            (cb ++ ((encodeValuesLoop [] r).1 ++ rest))
            (⟨0 :: 0 :: 0 :: 0 :: (cb ++ ((encodeValuesLoop [] r).1 ++ rest)),
              s.cnt, s.cnt + 1, s.cnt⟩ : DecSt)
            ((0x34 : Int), Value.void) (by decide) rfl (by rfl)
          have e : s.cnt + 1 + 4 = s.cnt + 5 := by omega
          simpa [e] using h0
        have hlen1 : s.input.length =
            5 + (cb.length + ((encodeValuesLoop [] r).1.length + rest.length)) := by
          rw [hshape]
          simp
          omega
        obtain ⟨o3, c3, t3, hinner⟩ :=
          dec_coll cc hwfc f []
            (⟨cb ++ ((encodeValuesLoop [] r).1 ++ rest),
              s.cnt + 5, s.cnt + 5, s.cnt⟩ : DecSt)
            ((encodeValuesLoop [] r).1 ++ rest) (by rw [hcb]) (by simp; omega) rfl
        obtain ⟨fuel2, o4, c4, t4, hrem, hb2, hb3⟩ :=
          dec_vals r hr f acc nm (done ++ [((52 : Int), Value.collection cc)])
            (⟨(encodeValuesLoop [] r).1 ++ rest, o3, c3, t3⟩ : DecSt) rest rfl
            (by simp; omega)
        refine ⟨fuel2, o4, c4, t4, ?_, hb2, Nat.le_trans hb3 (Nat.le_succ f)⟩
        rw [show ([] : List Attr) ++ cc = cc from rfl] at hinner
        have happ : appendValueLast (acc ++ [Attr.mk nm done])
            ((52 : Int), Value.collection cc) =
            acc ++ [Attr.mk nm (done ++ [((52 : Int), Value.collection cc)])] := by
          rw [appendValueLast_concat]
          simp [Attr.name, Attr.values]
        simp [decodeCollectionLoop, htag, hattr, tagIsDelimiter, TagMemberName,
          TagEndCollection, TagBeginCollection, hne2, hinner, happ, hrem,
          List.append_assoc]
      · -- plain value
        have hbc : t ≠ TagBeginCollection := by
          intro h
          subst h
          exact hvc (by rw [← hty]; decide)
        obtain ⟨d, hd, hdlen, henc, hunp⟩ := encodeValue_ok t v hty hpay hvc
        have hshape : s.input = tagByte t :: 0 :: 0 :: (bytes16 d.length ++
            (d ++ ((encodeValuesLoop [] r).1 ++ rest))) := by
          rw [hin, encodeValuesLoop_cons_shape [] t v r (by simp) (by rw [henc]),
            henc]
          simp [bytes16, List.append_assoc]
        have htag : decodeTag s = (.ok t,
            ⟨0 :: 0 :: (bytes16 d.length ++ (d ++ ((encodeValuesLoop [] r).1 ++ rest))),
             s.cnt, s.cnt + 1, s.cnt⟩) := by
          have h0 := decodeTag_cons (tagByte t) _ s hshape
          rwa [hcast] at h0
        have hattr : decodeAttribute t
            ⟨0 :: 0 :: (bytes16 d.length ++ (d ++ ((encodeValuesLoop [] r).1 ++ rest))),
             s.cnt, s.cnt + 1, s.cnt⟩ =
            .ok ([], (t, v))
              ⟨(encodeValuesLoop [] r).1 ++ rest,
               s.cnt + 5, s.cnt + 5 + d.length, s.cnt⟩ := by
          have h0 := decodeAttribute_noname t d
            ((encodeValuesLoop [] r).1 ++ rest)
            (⟨0 :: 0 :: (bytes16 d.length ++ (d ++ ((encodeValuesLoop [] r).1 ++ rest))),
              s.cnt, s.cnt + 1, s.cnt⟩ : DecSt)
            (t, v) (by omega) hx rfl hunp
          have e : s.cnt + 1 + 4 = s.cnt + 5 := by omega
          simpa [e] using h0
        have hlen1 : s.input.length =
            5 + (d.length + ((encodeValuesLoop [] r).1.length + rest.length)) := by
          rw [hshape]
          simp [bytes16]
          omega
        obtain ⟨fuel2, o4, c4, t4, hrem, hb2, hb3⟩ :=
          dec_vals r hr f acc nm (done ++ [(t, v)])
            (⟨(encodeValuesLoop [] r).1 ++ rest,
              s.cnt + 5, s.cnt + 5 + d.length, s.cnt⟩ : DecSt) rest rfl
            (by simp; omega)
        refine ⟨fuel2, o4, c4, t4, ?_, hb2, Nat.le_trans hb3 (Nat.le_succ f)⟩
        have happ : appendValueLast (acc ++ [Attr.mk nm done]) (t, v) =
            acc ++ [Attr.mk nm (done ++ [(t, v)])] := by
          rw [appendValueLast_concat]
          simp [Attr.name, Attr.values]
        simp [decodeCollectionLoop, htag, hattr, hdl, hm, hec,
          hbc, hne2, happ, hrem, List.append_assoc]
termination_by tvListSize vs
decreasing_by
  all_goals subst_vars
  all_goals (simp [valueSize, tvListSize, attrListSize_cons, attrSize,
    Attr.values]; try omega)

end

theorem setG_getG (m : Msg) (gi : GIdx) : m.setG gi (m.getG gi) = m := by
  cases gi <;> rfl

theorem setG_setG (m : Msg) (gi : GIdx) (l l' : List Attr) :
    (m.setG gi l).setG gi l' = m.setG gi l' := by
  cases gi <;> rfl

theorem encodeAttr_none (a : Attr) (hn : a.name.length ≤ 65535)
    (hv : a.values ≠ []) (hw : wfTVList a.values = true) :
    (encodeAttr a).2 = none := by
  have hie : a.values.isEmpty = false := by
    cases hvs : a.values with
    | nil => exact absurd hvs hv
    | cons _ _ => rfl
  have h1 : encodeAttr a = encodeValuesLoop a.name a.values := by
    simp [encodeAttr, hie]
  rw [h1]
  exact encodeValuesLoop_none a.name a.values hn hw

theorem encodeGroupAttrs_none (attrs : List Attr) (h : wfAttrList attrs = true) :
    (encodeGroupAttrs attrs).2 = none := by
  induction attrs with
  | nil => rfl
  | cons a rest ih =>
      cases a with
      | mk nm vs =>
          simp only [wfAttrList, Bool.and_eq_true, decide_eq_true_eq,
            Bool.not_eq_true'] at h
          obtain ⟨⟨⟨⟨hne, hlen⟩, hvne⟩, hwv⟩, hrest⟩ := h
          have hnmI : nm.isEmpty = false := by
            cases nm with
            | nil => exact absurd rfl hne
            | cons _ _ => rfl
          have ha : (encodeAttr (Attr.mk nm vs)).2 = none := by
            apply encodeAttr_none
            · simpa [Attr.name] using (by omega : nm.length ≤ 65535)
            · intro hc
              simp only [Attr.values] at hc
              rw [hc] at hvne
              simp at hvne
            · simpa [Attr.values] using hwv
          obtain ⟨ab, hab⟩ : ∃ b, encodeAttr (Attr.mk nm vs) = (b, none) :=
            ⟨_, pair_eta_none ha⟩
          obtain ⟨rb, hrb⟩ : ∃ b, encodeGroupAttrs rest = (b, none) :=
            ⟨_, pair_eta_none (ih hrest)⟩
          simp [encodeGroupAttrs, Attr.name, hnmI, hab, hrb]

theorem encodeGroupsLoop_none (gs : List (Int × List Attr))
    (h : ∀ p ∈ gs, wfAttrList p.2 = true) :
    (encodeGroupsLoop gs).2 = none := by
  induction gs with
  | nil => rfl
  | cons p rest ih =>
      obtain ⟨g, attrs⟩ := p
      have ha : (encodeGroupAttrs attrs).2 = none :=
        encodeGroupAttrs_none attrs (h (g, attrs) (by simp))
      obtain ⟨ab, hab⟩ : ∃ b, encodeGroupAttrs attrs = (b, none) :=
        ⟨_, pair_eta_none ha⟩
      have hr := ih (fun q hq => h q (by simp [hq]))
      simp [encodeGroupsLoop, hab, hr]

theorem applyGroup_empty (m : Msg) (p : Int × List Attr) (h : p.2.isEmpty = true) :
    applyGroup m p = m := by
  have h2 : p.2 = [] := by simpa using h
  unfold applyGroup
  cases hgi : groupTagToIdx p.1 with
  | none => rfl
  | some gi =>
      rw [h2]
      show m.setG gi (m.getG gi ++ []) = m
      rw [List.append_nil, setG_getG]

theorem applyGroups_filter (ps : List (Int × List Attr)) :
    ∀ m, applyGroups m (ps.filter fun p => !p.2.isEmpty) = applyGroups m ps := by
  induction ps with
  | nil => intro m; rfl
  | cons p r ih =>
      intro m
      by_cases hp : p.2.isEmpty
      · rw [List.filter_cons_of_neg (by simp [hp])]
        rw [ih m]
        show applyGroups m r = applyGroups (applyGroup m p) r
        rw [applyGroup_empty m p hp]
      · rw [List.filter_cons_of_pos (by simp [hp])]
        show applyGroups (applyGroup m p) (List.filter _ r) = _
        rw [ih (applyGroup m p)]
        rfl

theorem applyGroups_base (m : Msg) :
    applyGroups { version := m.version, code := m.code, requestID := m.requestID }
      [(TagOperationGroup, m.operation), (TagJobGroup, m.job),
       (TagPrinterGroup, m.printer), (TagUnsupportedGroup, m.unsupported),
       (TagSubscriptionGroup, m.subscription),
       (TagEventNotificationGroup, m.eventNotification),
       (TagResourceGroup, m.resource), (TagDocumentGroup, m.document),
       (TagSystemGroup, m.system), (TagFuture11Group, m.future11),
       (TagFuture12Group, m.future12), (TagFuture13Group, m.future13),
       (TagFuture14Group, m.future14), (TagFuture15Group, m.future15)] = m := by
  simp [applyGroups, applyGroup, groupTagToIdx, Msg.setG, Msg.getG,
    TagOperationGroup, TagJobGroup, TagPrinterGroup, TagUnsupportedGroup,
    TagSubscriptionGroup, TagEventNotificationGroup, TagResourceGroup,
    TagDocumentGroup, TagSystemGroup, TagFuture11Group, TagFuture12Group,
    TagFuture13Group, TagFuture14Group, TagFuture15Group, List.nil_append]

theorem applyGroups_attrGroups (m : Msg) :
    applyGroups { version := m.version, code := m.code, requestID := m.requestID }
      (attrGroups m) = m := by
  simp only [attrGroups]
  rw [applyGroups_filter]
  exact applyGroups_base m

theorem attrGroups_tag_props (m : Msg) (p : Int × List Attr)
    (hp : p ∈ attrGroups m) :
    ((tagByte p.1 : Nat) : Int) = p.1 ∧ ∃ gi, groupTagToIdx p.1 = some gi := by
  obtain ⟨hmem, -⟩ :
      (p = (TagOperationGroup, m.operation) ∨ p = (TagJobGroup, m.job) ∨
       p = (TagPrinterGroup, m.printer) ∨ p = (TagUnsupportedGroup, m.unsupported) ∨
       p = (TagSubscriptionGroup, m.subscription) ∨
       p = (TagEventNotificationGroup, m.eventNotification) ∨
       p = (TagResourceGroup, m.resource) ∨ p = (TagDocumentGroup, m.document) ∨
       p = (TagSystemGroup, m.system) ∨ p = (TagFuture11Group, m.future11) ∨
       p = (TagFuture12Group, m.future12) ∨ p = (TagFuture13Group, m.future13) ∨
       p = (TagFuture14Group, m.future14) ∨ p = (TagFuture15Group, m.future15)) ∧
      ¬ p.2 = [] := by simpa [attrGroups] using hp
  rcases hmem with rfl | rfl | rfl | rfl | rfl | rfl | rfl | rfl | rfl | rfl | rfl | rfl | rfl | rfl
  all_goals exact ⟨by simp only []; decide, _, rfl⟩

theorem encodeGroupAttrs_cons_shape (a : Attr) (r : List Attr)
    (hnm : a.name.isEmpty = false) :
    (encodeGroupAttrs (a :: r)).1 = (encodeAttr a).1 ++ (encodeGroupAttrs r).1 := by
  simp [encodeGroupAttrs, hnm]

theorem encodeAttr_shape (a : Attr) (hv : a.values.isEmpty = false) :
    encodeAttr a = encodeValuesLoop a.name a.values := by
  simp [encodeAttr, hv]

/-- A `TagEnd` byte ends the decode loop with the accumulated message. -/
theorem decodeLoop_end (fuel : Nat) (s : DecSt) (m : Msg) (g p : Option GIdx)
    (rest : List Nat) (h : s.input = 3 :: rest) :
    decodeLoop (fuel + 1) s m g p = .ok m ⟨rest, s.cnt, s.cnt + 1, s.cnt⟩ := by
  simp [decodeLoop, decodeTag_cons 3 rest s h, tagIsDelimiter, TagZero, TagEnd]

/-- Decoding encoded well-formed continuation values appends them to the
last attribute of the current group. -/
theorem dec_vals_top (vs : List (Int × Value)) :
    ∀ fuel (s : DecSt) rest m gi pre nm done,
      wfTVList vs = true →
      m.getG gi = pre ++ [Attr.mk nm done] →
      s.input = (encodeValuesLoop [] vs).1 ++ rest →
      s.input.length + 1 ≤ fuel →
      ∃ fuel2 o2 c2 t2,
        decodeLoop fuel s m (some gi) (some gi) =
          decodeLoop fuel2 ⟨rest, o2, c2, t2⟩
            (m.setG gi (pre ++ [Attr.mk nm (done ++ vs)])) (some gi) (some gi) ∧
        rest.length + 1 ≤ fuel2 ∧ fuel2 ≤ fuel := by
  induction vs with
  | nil =>
      intro fuel s rest m gi pre nm done _ hpre hin hfuel
      obtain ⟨si, so, sc, st⟩ := s
      simp only [encodeValuesLoop, List.nil_append] at hin
      simp only at hin hfuel
      refine ⟨fuel, so, sc, st, ?_, ?_, Nat.le_refl fuel⟩
      · rw [List.append_nil, ← hpre, setG_getG, hin]
      · rw [hin] at hfuel
        exact hfuel
  | cons tv r ih =>
      obtain ⟨t, v⟩ := tv
      intro fuel s rest m gi pre nm done hwf hpre hin hfuel
      simp only [wfTVList, Bool.and_eq_true, decide_eq_true_eq] at hwf
      obtain ⟨⟨⟨htw, hty⟩, hpay⟩, hr⟩ := hwf
      obtain ⟨hdl, hz, he, hgi, hm, hec, hx, hcast⟩ := wfValueTag_props htw
      obtain ⟨f, rfl⟩ : ∃ f, fuel = f + 1 := ⟨fuel - 1, by omega⟩
      by_cases hvc : v.type = Ty.collection
      · -- collection continuation value
        obtain ⟨cc, rfl⟩ := valueType_collection_inv v hvc
        have h34 : t = TagBeginCollection := tagType_collection_eq (by rw [hty]; rfl)
        subst h34
        have hwfc : wfAttrList cc = true := by simpa [wfPayload] using hpay
        obtain ⟨cb, hcb⟩ : ∃ b, encodeCollection cc = (b, none) :=
          ⟨_, pair_eta_none (encodeCollection_none cc hwfc)⟩
        have hshape : s.input = 0x34 :: 0 :: 0 :: 0 :: 0 ::
            (cb ++ ((encodeValuesLoop [] r).1 ++ rest)) := by
          rw [hin, encodeValuesLoop_cons_shape [] TagBeginCollection (.collection cc) r
            (by simp) (by rw [encodeValue_collection_shape, hcb]),
            encodeValue_collection_shape, hcb]
          have htb : tagByte (52 : Int) = 52 := by decide
          simp [htb, bytes16, TagBeginCollection, List.append_assoc]
        have htag : decodeTag s = (.ok (0x34 : Int),
            ⟨0 :: 0 :: 0 :: 0 :: (cb ++ ((encodeValuesLoop [] r).1 ++ rest)),
             s.cnt, s.cnt + 1, s.cnt⟩) :=
          decodeTag_cons 0x34 _ s hshape
        have hattr : decodeAttribute (0x34 : Int)
            ⟨0 :: 0 :: 0 :: 0 :: (cb ++ ((encodeValuesLoop [] r).1 ++ rest)),
             s.cnt, s.cnt + 1, s.cnt⟩ =
            .ok ([], ((0x34 : Int), Value.void))
              ⟨cb ++ ((encodeValuesLoop [] r).1 ++ rest),
               s.cnt + 5, s.cnt + 5, s.cnt⟩ := by
          have h0 := decodeAttribute_void (0x34 : Int)
            (cb ++ ((encodeValuesLoop [] r).1 ++ rest))
            (⟨0 :: 0 :: 0 :: 0 :: (cb ++ ((encodeValuesLoop [] r).1 ++ rest)),
              s.cnt, s.cnt + 1, s.cnt⟩ : DecSt)
            ((0x34 : Int), Value.void) (by decide) rfl (by rfl)
          have e : s.cnt + 1 + 4 = s.cnt + 5 := by omega
          simpa [e] using h0
        have hlen1 : s.input.length =
            5 + (cb.length + ((encodeValuesLoop [] r).1.length + rest.length)) := by
          rw [hshape]
          simp
          omega
        obtain ⟨o3, c3, t3, hinner⟩ :=
          dec_coll cc hwfc f []
            (⟨cb ++ ((encodeValuesLoop [] r).1 ++ rest),
              s.cnt + 5, s.cnt + 5, s.cnt⟩ : DecSt)
            ((encodeValuesLoop [] r).1 ++ rest) (by rw [hcb]) (by simp; omega) rfl
        rw [show ([] : List Attr) ++ cc = cc from rfl] at hinner
        have happ : addToPrev m gi ((52 : Int), Value.collection cc) =
            m.setG gi (pre ++ [Attr.mk nm (done ++ [((52 : Int), Value.collection cc)])]) := by
          unfold addToPrev
          rw [hpre, appendValueLast_concat]
          simp [Attr.name, Attr.values]
        obtain ⟨fuel2, o4, c4, t4, hrem, hb2, hb3⟩ :=
          ih f (⟨(encodeValuesLoop [] r).1 ++ rest, o3, c3, t3⟩ : DecSt) rest
            (m.setG gi (pre ++ [Attr.mk nm (done ++ [((52 : Int), Value.collection cc)])]))
            gi pre nm (done ++ [((52 : Int), Value.collection cc)]) hr
            (by rw [getG_setG]) rfl (by simp; omega)
        rw [setG_setG] at hrem
        refine ⟨fuel2, o4, c4, t4, ?_, hb2, Nat.le_trans hb3 (Nat.le_succ f)⟩
        simp [decodeLoop, htag, hattr, tagIsDelimiter, TagZero, TagEnd, TagMemberName,
          TagEndCollection, TagBeginCollection, groupTagToIdx, TagOperationGroup,
          TagJobGroup, TagPrinterGroup, TagUnsupportedGroup, TagSubscriptionGroup,
          TagEventNotificationGroup, TagResourceGroup, TagDocumentGroup,
          TagSystemGroup, TagFuture11Group, TagFuture12Group, TagFuture13Group,
          TagFuture14Group, TagFuture15Group,
          hinner, happ, hrem, List.append_assoc]
      · -- plain continuation value
        have hbc : t ≠ TagBeginCollection := by
          intro h
          subst h
          exact hvc (by rw [← hty]; decide)
        obtain ⟨d, hd, hdlen, henc, hunp⟩ := encodeValue_ok t v hty hpay hvc
        have hshape : s.input = tagByte t :: 0 :: 0 :: (bytes16 d.length ++
            (d ++ ((encodeValuesLoop [] r).1 ++ rest))) := by
          rw [hin, encodeValuesLoop_cons_shape [] t v r (by simp) (by rw [henc]),
            henc]
          simp [bytes16, List.append_assoc]
        have htag : decodeTag s = (.ok t,
            ⟨0 :: 0 :: (bytes16 d.length ++ (d ++ ((encodeValuesLoop [] r).1 ++ rest))),
             s.cnt, s.cnt + 1, s.cnt⟩) := by
          have h0 := decodeTag_cons (tagByte t) _ s hshape
          rwa [hcast] at h0
        have hattr : decodeAttribute t
            ⟨0 :: 0 :: (bytes16 d.length ++ (d ++ ((encodeValuesLoop [] r).1 ++ rest))),
             s.cnt, s.cnt + 1, s.cnt⟩ =
            .ok ([], (t, v))
              ⟨(encodeValuesLoop [] r).1 ++ rest,
               s.cnt + 5, s.cnt + 5 + d.length, s.cnt⟩ := by
          have h0 := decodeAttribute_noname t d
            ((encodeValuesLoop [] r).1 ++ rest)
            (⟨0 :: 0 :: (bytes16 d.length ++ (d ++ ((encodeValuesLoop [] r).1 ++ rest))),
              s.cnt, s.cnt + 1, s.cnt⟩ : DecSt)
            (t, v) (by omega) hx rfl hunp
          have e : s.cnt + 1 + 4 = s.cnt + 5 := by omega
          simpa [e] using h0
        have hlen1 : s.input.length =
            5 + (d.length + ((encodeValuesLoop [] r).1.length + rest.length)) := by
          rw [hshape]
          simp [bytes16]
          omega
        have happ : addToPrev m gi (t, v) =
            m.setG gi (pre ++ [Attr.mk nm (done ++ [(t, v)])]) := by
          unfold addToPrev
          rw [hpre, appendValueLast_concat]
          simp [Attr.name, Attr.values]
        obtain ⟨fuel2, o4, c4, t4, hrem, hb2, hb3⟩ :=
          ih f (⟨(encodeValuesLoop [] r).1 ++ rest,
              s.cnt + 5, s.cnt + 5 + d.length, s.cnt⟩ : DecSt) rest
            (m.setG gi (pre ++ [Attr.mk nm (done ++ [(t, v)])]))
            gi pre nm (done ++ [(t, v)]) hr (by rw [getG_setG]) rfl
            (by simp; omega)
        rw [setG_setG] at hrem
        refine ⟨fuel2, o4, c4, t4, ?_, hb2, Nat.le_trans hb3 (Nat.le_succ f)⟩
        simp [decodeLoop, htag, hattr, hdl, hz, he, hgi, hm, hec, hbc,
          happ, hrem, List.append_assoc]

/-- Decoding an encoded well-formed attribute list appends it to the
current group of the message under construction. -/
theorem dec_attrs_top (attrs : List Attr) :
    ∀ fuel (s : DecSt) rest m gi p,
      wfAttrList attrs = true →
      s.input = (encodeGroupAttrs attrs).1 ++ rest →
      s.input.length + 1 ≤ fuel →
      ∃ fuel2 o2 c2 t2 p2,
        decodeLoop fuel s m (some gi) p =
          decodeLoop fuel2 ⟨rest, o2, c2, t2⟩
            (m.setG gi (m.getG gi ++ attrs)) (some gi) p2 ∧
        rest.length + 1 ≤ fuel2 ∧ fuel2 ≤ fuel := by
  induction attrs with
  | nil =>
      intro fuel s rest m gi p _ hin hfuel
      obtain ⟨si, so, sc, st⟩ := s
      simp only [encodeGroupAttrs, List.nil_append] at hin
      simp only at hin hfuel
      refine ⟨fuel, so, sc, st, p, ?_, ?_, Nat.le_refl fuel⟩
      · rw [List.append_nil, setG_getG, hin]
      · rw [hin] at hfuel
        exact hfuel
  | cons a r ih =>
      intro fuel s rest m gi p hwf hin hfuel
      cases a with
      | mk nm vs =>
      simp only [wfAttrList, Bool.and_eq_true, decide_eq_true_eq,
        Bool.not_eq_true'] at hwf
      obtain ⟨⟨⟨⟨hne, hlen⟩, hvne⟩, hwv⟩, hrest⟩ := hwf
      have hnmI : nm.isEmpty = false := by
        cases nm with
        | nil => exact absurd rfl hne
        | cons _ _ => rfl
      obtain ⟨t, v, vr, rfl⟩ : ∃ t v vr, vs = (t, v) :: vr := by
        cases vs with
        | nil => simp at hvne
        | cons tv vr => exact ⟨tv.1, tv.2, vr, by simp⟩
      simp only [wfTVList, Bool.and_eq_true, decide_eq_true_eq] at hwv
      obtain ⟨⟨⟨htw, hty⟩, hpay⟩, hvr⟩ := hwv
      obtain ⟨hdl, hz, he, hgi, hm, hec, hx, hcast⟩ := wfValueTag_props htw
      obtain ⟨f, rfl⟩ : ∃ f, fuel = f + 1 := ⟨fuel - 1, by omega⟩
      have hstream : s.input = (encodeValuesLoop nm ((t, v) :: vr)).1 ++
          ((encodeGroupAttrs r).1 ++ rest) := by
        rw [hin, encodeGroupAttrs_cons_shape _ r (by simpa [Attr.name] using hnmI),
          encodeAttr_shape _ (by simp [Attr.values])]
        simp [Attr.name, Attr.values, List.append_assoc]
      by_cases hvc : v.type = Ty.collection
      · -- first value of the attribute is a collection
        obtain ⟨cc, rfl⟩ := valueType_collection_inv v hvc
        have h34 : t = TagBeginCollection := tagType_collection_eq (by rw [hty]; rfl)
        subst h34
        have hwfc : wfAttrList cc = true := by simpa [wfPayload] using hpay
        obtain ⟨cb, hcb⟩ : ∃ b, encodeCollection cc = (b, none) :=
          ⟨_, pair_eta_none (encodeCollection_none cc hwfc)⟩
        have hshape : s.input = 0x34 :: (bytes16 nm.length ++ (nm ++ (0 :: 0 ::
            (cb ++ ((encodeValuesLoop [] vr).1 ++
              ((encodeGroupAttrs r).1 ++ rest)))))) := by
          rw [hstream, encodeValuesLoop_cons_shape nm TagBeginCollection
            (.collection cc) vr (by omega) (by rw [encodeValue_collection_shape, hcb]),
            encodeValue_collection_shape, hcb]
          have htb : tagByte (52 : Int) = 52 := by decide
          simp [htb, TagBeginCollection, List.append_assoc]
        have htag : decodeTag s = (.ok (0x34 : Int),
            ⟨bytes16 nm.length ++ (nm ++ (0 :: 0 ::
              (cb ++ ((encodeValuesLoop [] vr).1 ++
                ((encodeGroupAttrs r).1 ++ rest))))),
             s.cnt, s.cnt + 1, s.cnt⟩) :=
          decodeTag_cons 0x34 _ s hshape
        have hattr : decodeAttribute (0x34 : Int)
            ⟨bytes16 nm.length ++ (nm ++ (0 :: 0 ::
              (cb ++ ((encodeValuesLoop [] vr).1 ++
                ((encodeGroupAttrs r).1 ++ rest))))),
             s.cnt, s.cnt + 1, s.cnt⟩ =
            .ok (nm, ((0x34 : Int), Value.void))
              ⟨cb ++ ((encodeValuesLoop [] vr).1 ++ ((encodeGroupAttrs r).1 ++ rest)),
               s.cnt + 5 + nm.length, s.cnt + 5 + nm.length, s.cnt⟩ := by
          have h0 := decodeAttribute_ok (0x34 : Int) nm []
            (cb ++ ((encodeValuesLoop [] vr).1 ++ ((encodeGroupAttrs r).1 ++ rest)))
            (⟨bytes16 nm.length ++ (nm ++ (0 :: 0 ::
              (cb ++ ((encodeValuesLoop [] vr).1 ++
                ((encodeGroupAttrs r).1 ++ rest))))),
              s.cnt, s.cnt + 1, s.cnt⟩ : DecSt)
            ((0x34 : Int), Value.void) hlen (by decide) (by decide)
            (by simp [bytes16]) (by rfl)
          have e : s.cnt + 1 + 4 + nm.length = s.cnt + 5 + nm.length := by omega
          simpa [e] using h0
        have hlen1 : s.input.length = 5 + nm.length +
            (cb.length + ((encodeValuesLoop [] vr).1.length +
              ((encodeGroupAttrs r).1.length + rest.length))) := by
          rw [hshape]
          simp [bytes16]
          omega
        obtain ⟨o3, c3, t3, hinner⟩ :=
          dec_coll cc hwfc f []
            (⟨cb ++ ((encodeValuesLoop [] vr).1 ++ ((encodeGroupAttrs r).1 ++ rest)),
              s.cnt + 5 + nm.length, s.cnt + 5 + nm.length, s.cnt⟩ : DecSt)
            ((encodeValuesLoop [] vr).1 ++ ((encodeGroupAttrs r).1 ++ rest))
            (by rw [hcb]) (by simp; omega) rfl
        rw [show ([] : List Attr) ++ cc = cc from rfl] at hinner
        obtain ⟨fuel2, o4, c4, t4, hvals, hb2, hb3⟩ :=
          dec_vals_top vr f
            (⟨(encodeValuesLoop [] vr).1 ++ ((encodeGroupAttrs r).1 ++ rest),
              o3, c3, t3⟩ : DecSt)
            ((encodeGroupAttrs r).1 ++ rest)
            (addAttr m gi (Attr.mk nm [((52 : Int), Value.collection cc)]))
            gi (m.getG gi) nm [((52 : Int), Value.collection cc)] hvr
            (by unfold addAttr; rw [getG_setG]) rfl (by simp; omega)
        unfold addAttr at hvals
        rw [setG_setG] at hvals
        obtain ⟨fuel3, o5, c5, t5, p5, hrest2, hb4, hb5⟩ :=
          ih fuel2 (⟨(encodeGroupAttrs r).1 ++ rest, o4, c4, t4⟩ : DecSt) rest
            (m.setG gi (m.getG gi ++
              [Attr.mk nm ([((52 : Int), Value.collection cc)] ++ vr)]))
            gi (some gi) hrest rfl (by simpa using hb2)
        rw [getG_setG, setG_setG] at hrest2
        refine ⟨fuel3, o5, c5, t5, p5, ?_, hb4,
          Nat.le_trans hb5 (Nat.le_trans hb3 (Nat.le_succ f))⟩
        simp only [List.singleton_append] at hvals hrest2
        simp [decodeLoop, htag, hattr, tagIsDelimiter, TagZero, TagEnd, TagMemberName,
          TagEndCollection, TagBeginCollection, groupTagToIdx, TagOperationGroup,
          TagJobGroup, TagPrinterGroup, TagUnsupportedGroup, TagSubscriptionGroup,
          TagEventNotificationGroup, TagResourceGroup, TagDocumentGroup,
          TagSystemGroup, TagFuture11Group, TagFuture12Group, TagFuture13Group,
          TagFuture14Group, TagFuture15Group,
          hinner, hnmI, addAttr, hvals, hrest2, List.append_assoc]
      · -- first value of the attribute is a plain value
        have hbc : t ≠ TagBeginCollection := by
          intro h
          subst h
          exact hvc (by rw [← hty]; decide)
        obtain ⟨d, hd, hdlen, henc, hunp⟩ := encodeValue_ok t v hty hpay hvc
        have hshape : s.input = tagByte t :: (bytes16 nm.length ++ (nm ++
            (bytes16 d.length ++ (d ++ ((encodeValuesLoop [] vr).1 ++
              ((encodeGroupAttrs r).1 ++ rest)))))) := by
          rw [hstream, encodeValuesLoop_cons_shape nm t v vr (by omega)
            (by rw [henc]), henc]
          simp [List.append_assoc]
        have htag : decodeTag s = (.ok t,
            ⟨bytes16 nm.length ++ (nm ++ (bytes16 d.length ++ (d ++
              ((encodeValuesLoop [] vr).1 ++ ((encodeGroupAttrs r).1 ++ rest))))),
             s.cnt, s.cnt + 1, s.cnt⟩) := by
          have h0 := decodeTag_cons (tagByte t) _ s hshape
          rwa [hcast] at h0
        have hattr : decodeAttribute t
            ⟨bytes16 nm.length ++ (nm ++ (bytes16 d.length ++ (d ++
              ((encodeValuesLoop [] vr).1 ++ ((encodeGroupAttrs r).1 ++ rest))))),
             s.cnt, s.cnt + 1, s.cnt⟩ =
            .ok (nm, (t, v))
              ⟨(encodeValuesLoop [] vr).1 ++ ((encodeGroupAttrs r).1 ++ rest),
               s.cnt + 5 + nm.length, s.cnt + 5 + nm.length + d.length, s.cnt⟩ := by
          have h0 := decodeAttribute_ok t nm d
            ((encodeValuesLoop [] vr).1 ++ ((encodeGroupAttrs r).1 ++ rest))
            (⟨bytes16 nm.length ++ (nm ++ (bytes16 d.length ++ (d ++
              ((encodeValuesLoop [] vr).1 ++ ((encodeGroupAttrs r).1 ++ rest))))),
              s.cnt, s.cnt + 1, s.cnt⟩ : DecSt)
            (t, v) hlen (by omega) hx rfl hunp
          have e : s.cnt + 1 + 4 + nm.length = s.cnt + 5 + nm.length := by omega
          simpa [e] using h0
        have hlen1 : s.input.length = 5 + nm.length +
            (d.length + ((encodeValuesLoop [] vr).1.length +
              ((encodeGroupAttrs r).1.length + rest.length))) := by
          rw [hshape]
          simp [bytes16]
          omega
        obtain ⟨fuel2, o4, c4, t4, hvals, hb2, hb3⟩ :=
          dec_vals_top vr f
            (⟨(encodeValuesLoop [] vr).1 ++ ((encodeGroupAttrs r).1 ++ rest),
              s.cnt + 5 + nm.length, s.cnt + 5 + nm.length + d.length, s.cnt⟩ : DecSt)
            ((encodeGroupAttrs r).1 ++ rest)
            (addAttr m gi (Attr.mk nm [(t, v)]))
            gi (m.getG gi) nm [(t, v)] hvr
            (by unfold addAttr; rw [getG_setG]) rfl (by simp; omega)
        unfold addAttr at hvals
        rw [setG_setG] at hvals
        obtain ⟨fuel3, o5, c5, t5, p5, hrest2, hb4, hb5⟩ :=
          ih fuel2 (⟨(encodeGroupAttrs r).1 ++ rest, o4, c4, t4⟩ : DecSt) rest
            (m.setG gi (m.getG gi ++ [Attr.mk nm ([(t, v)] ++ vr)]))
            gi (some gi) hrest rfl (by simpa using hb2)
        rw [getG_setG, setG_setG] at hrest2
        refine ⟨fuel3, o5, c5, t5, p5, ?_, hb4,
          Nat.le_trans hb5 (Nat.le_trans hb3 (Nat.le_succ f))⟩
        simp only [List.singleton_append] at hvals hrest2
        simp [decodeLoop, htag, hattr, hdl, hz, he, hgi, hm, hec, hbc,
          hnmI, addAttr, hvals, hrest2, List.append_assoc]

/-- Decoding an encoded well-formed group sequence applies each group to
the message under construction. -/
theorem dec_groups (gs : List (Int × List Attr)) :
    ∀ fuel (s : DecSt) rest m g p,
      (∀ q ∈ gs, (((tagByte q.1 : Nat) : Int) = q.1) ∧
        (∃ gi, groupTagToIdx q.1 = some gi) ∧ wfAttrList q.2 = true) →
      s.input = (encodeGroupsLoop gs).1 ++ rest →
      s.input.length + 1 ≤ fuel →
      ∃ fuel2 o2 c2 t2 g2 p2,
        decodeLoop fuel s m g p =
          decodeLoop fuel2 ⟨rest, o2, c2, t2⟩ (applyGroups m gs) g2 p2 ∧
        rest.length + 1 ≤ fuel2 ∧ fuel2 ≤ fuel := by
  induction gs with
  | nil =>
      intro fuel s rest m g p _ hin hfuel
      obtain ⟨si, so, sc, st⟩ := s
      simp only [encodeGroupsLoop, List.nil_append] at hin
      simp only at hin hfuel
      refine ⟨fuel, so, sc, st, g, p, ?_, ?_, Nat.le_refl fuel⟩
      · rw [hin]
        rfl
      · rw [hin] at hfuel
        exact hfuel
  | cons q r ih =>
      intro fuel s rest m g p hgs hin hfuel
      obtain ⟨gt, attrs⟩ := q
      obtain ⟨hcast, ⟨gi, hgi⟩, hwfa⟩ := hgs (gt, attrs) (by simp)
      simp only at hcast hgi hwfa
      obtain ⟨ab, hab⟩ : ∃ b, encodeGroupAttrs attrs = (b, none) :=
        ⟨_, pair_eta_none (encodeGroupAttrs_none attrs hwfa)⟩
      have hshape : s.input = tagByte gt ::
          (ab ++ ((encodeGroupsLoop r).1 ++ rest)) := by
        rw [hin]
        simp [encodeGroupsLoop, hab, List.append_assoc]
      obtain ⟨f, rfl⟩ : ∃ f, fuel = f + 1 := ⟨fuel - 1, by omega⟩
      have hstep := decodeLoop_step_group f s (tagByte gt)
        (ab ++ ((encodeGroupsLoop r).1 ++ rest)) m g p gi hshape
        (by rw [hcast]; exact hgi)
      have hlen1 : s.input.length =
          1 + (ab.length + ((encodeGroupsLoop r).1.length + rest.length)) := by
        rw [hshape]
        simp
        omega
      obtain ⟨fuel2, o2, c2, t2, p2, hattrs, hb2, hb3⟩ :=
        dec_attrs_top attrs f
          (⟨ab ++ ((encodeGroupsLoop r).1 ++ rest), s.cnt, s.cnt + 1, s.cnt⟩ : DecSt)
          ((encodeGroupsLoop r).1 ++ rest) m gi none hwfa (by simp [hab])
          (by simp; omega)
      obtain ⟨fuel3, o3, c3, t3, g3, p3, hrest2, hb4, hb5⟩ :=
        ih fuel2 (⟨(encodeGroupsLoop r).1 ++ rest, o2, c2, t2⟩ : DecSt) rest
          (m.setG gi (m.getG gi ++ attrs)) (some gi) p2
          (fun q hq => hgs q (by simp [hq])) rfl (by simpa using hb2)
      refine ⟨fuel3, o3, c3, t3, g3, p3, ?_, hb4,
        Nat.le_trans hb5 (Nat.le_trans hb3 (Nat.le_succ f))⟩
      rw [hstep, hattrs, hrest2]
      show _ = decodeLoop fuel3 _ (applyGroups (applyGroup m (gt, attrs)) r) g3 p3
      have hap : applyGroup m (gt, attrs) = m.setG gi (m.getG gi ++ attrs) := by
        unfold applyGroup
        rw [hgi]
      rw [hap]

/-- **C1 counterexample**: the claim's well-formedness (as worded in the
spec: names non-empty and within 16-bit lengths, at least one value, value
type matching the tag's type, payloads within 16-bit lengths) admits a
value carrying the `EndCollection` tag: `tagType` maps it to Void, so it
matches a Void value and encodes without error, but the decode loop
rejects the tag unconditionally, so `decode(encode(m))` is an error, not
a message equal to `m`. -/
theorem roundtrip_claim_counterexample :
    claimWellFormed mCex = true ∧
    messageEncode mCex = ([2, 0, 0, 2, 0, 0, 0, 1, 1, 55, 0, 1, 97, 0, 0, 3], none) ∧
    messageDecode [2, 0, 0, 2, 0, 0, 0, 1, 1, 55, 0, 1, 97, 0, 0, 3] =
      .err "Unexpected tag endCollection at 0x9" ⟨[0, 1, 97, 0, 0, 3], 9, 10, 9⟩ := by
  have h1 : tagType (55 : Int) = Ty.void := by decide
  refine ⟨?_, ?_, ?_⟩
  · simp [claimWellFormed, mCex, attrGroups, claimWfAttrList, claimWfTVList,
      claimWfPayload, valueEncode, Value.type, h1, TagEndCollection]
  · have ht3 : tagByte TagEnd = 3 := by decide
    have ht55 : tagByte (55 : Int) = 55 := by decide
    have htg : tagByte TagOperationGroup = 1 := by decide
    simp [messageEncode, mCex, attrGroups, encodeGroupsLoop, encodeGroupAttrs, htg,
      encodeAttr, encodeValuesLoop, encodeValue, encodeName, valueEncode,
      bytes16, bytes32, ht3, ht55, h1, Attr.name, Attr.values, Value.type,
      TagEndCollection]
  · rfl

/-- **C1** (corrected): for every message well-formed in the amended
sense (`wfMsg`: header fields within their Go fixed widths; every
attribute with a non-empty name under 2^16 bytes and at least one value;
every value tag a single-byte non-delimiter tag other than
`MemberName`/`EndCollection`/`Extension`; tag type matching the value
type; payloads surviving the per-kind truncations and length fields),
encoding the message succeeds and decoding the encoded bytes returns
exactly the original message — same version, code and request id, and
the same groups, attributes and values in the same order — so
`Message.Equal` holds between them. -/
theorem messageEncode_decode_roundtrip (m : Msg) (hwf : wfMsg m = true) :
    (messageEncode m).2 = none ∧
    ∃ s, messageDecode (messageEncode m).1 = .ok m s ∧ msgEqB m m = true := by
  simp only [wfMsg, Bool.and_eq_true, decide_eq_true_eq, List.all_eq_true] at hwf
  obtain ⟨⟨⟨hv, hc⟩, hr⟩, hall⟩ := hwf
  have hall' : ∀ p ∈ attrGroups m, wfAttrList p.2 = true := fun p hp => hall p hp
  obtain ⟨gb, hgb⟩ : ∃ b, encodeGroupsLoop (attrGroups m) = (b, none) :=
    ⟨_, pair_eta_none (encodeGroupsLoop_none _ hall')⟩
  have henc : messageEncode m =
      ((m.version / 256 % 256) :: (m.version % 256) ::
       (m.code / 256 % 256) :: (m.code % 256) ::
       (m.requestID / 16777216 % 256) :: (m.requestID / 65536 % 256) ::
       (m.requestID / 256 % 256) :: (m.requestID % 256) :: (gb ++ [3]), none) := by
    have e1 : m.version % 65536 = m.version := Nat.mod_eq_of_lt hv
    have e2 : m.code % 65536 = m.code := Nat.mod_eq_of_lt hc
    have e3 : m.requestID % 4294967296 = m.requestID := Nat.mod_eq_of_lt hr
    have ht : tagByte TagEnd = 3 := by decide
    simp [messageEncode, hgb, e1, e2, e3, bytes16, bytes32, ht]
  refine ⟨by rw [henc], ?_⟩
  have hcore := messageDecodeCore_header (m.version / 256 % 256) (m.version % 256)
    (m.code / 256 % 256) (m.code % 256) (m.requestID / 16777216 % 256)
    (m.requestID / 65536 % 256) (m.requestID / 256 % 256) (m.requestID % 256)
    (gb ++ [3])
  have ev : 256 * (m.version / 256 % 256) + m.version % 256 = m.version := by omega
  have ec : 256 * (m.code / 256 % 256) + m.code % 256 = m.code := by omega
  have er : 16777216 * (m.requestID / 16777216 % 256) +
      65536 * (m.requestID / 65536 % 256) + 256 * (m.requestID / 256 % 256) +
      m.requestID % 256 = m.requestID := by omega
  rw [ev, ec, er] at hcore
  have hgs : ∀ q ∈ attrGroups m, (((tagByte q.1 : Nat) : Int) = q.1) ∧
      (∃ gi, groupTagToIdx q.1 = some gi) ∧ wfAttrList q.2 = true := by
    intro q hq
    obtain ⟨h1, h2⟩ := attrGroups_tag_props m q hq
    exact ⟨h1, h2, hall' q hq⟩
  obtain ⟨fuel2, o2, c2, t2, g2, p2, hloop, hb2, hb3⟩ :=
    dec_groups (attrGroups m) ((gb ++ [3]).length + 1)
      (⟨gb ++ [3], 4, 8, 0⟩ : DecSt) [3]
      { version := m.version, code := m.code, requestID := m.requestID }
      none none hgs (by rw [hgb]) (by simp)
  obtain ⟨f2, rfl⟩ : ∃ f, fuel2 = f + 1 := ⟨fuel2 - 1, by omega⟩
  have hend := decodeLoop_end f2 (⟨[3], o2, c2, t2⟩ : DecSt)
    (applyGroups { version := m.version, code := m.code, requestID := m.requestID }
      (attrGroups m)) g2 p2 [] rfl
  have hfinal : messageDecodeCore
      ((m.version / 256 % 256) :: (m.version % 256) ::
       (m.code / 256 % 256) :: (m.code % 256) ::
       (m.requestID / 16777216 % 256) :: (m.requestID / 65536 % 256) ::
       (m.requestID / 256 % 256) :: (m.requestID % 256) :: (gb ++ [3])) =
      .ok m ⟨[], c2, c2 + 1, c2⟩ := by
    rw [hcore, hloop]
    simpa [applyGroups_attrGroups] using hend
  refine ⟨⟨[], c2, c2 + 1, c2⟩, ?_, msgEqB_refl m⟩
  simp only [henc]
  simp only [messageDecode, hfinal]

/-- **C1 witness**: the round-trip theorem applied to a concrete
two-group message carrying an Integer value and a collection value. -/
theorem messageEncode_decode_roundtrip_witness :
    wfMsg mWit = true ∧
    ((messageEncode mWit).2 = none ∧
     ∃ s, messageDecode (messageEncode mWit).1 = .ok mWit s ∧
       msgEqB mWit mWit = true) := by
  have h33 : tagType (33 : Int) = Ty.integer := by decide
  have h52 : tagType (52 : Int) = Ty.collection := by decide
  have h66 : tagType (66 : Int) = Ty.string := by decide
  have hwf : wfMsg mWit = true := by
    simp [wfMsg, mWit, attrGroups, wfAttrList, wfTVList, wfPayload, wfValueTag,
      Value.type, h33, h52, h66, tagIsDelimiter, TagInteger, TagName,
      TagBeginCollection, TagMemberName, TagEndCollection, TagExtension]
  exact ⟨hwf, messageEncode_decode_roundtrip mWit hwf⟩

end Goipp
